import Mathlib

/-!
Verification of the IBKR stock-loan reconciliation pipeline
(`scrape_logic/scrape_ibkr_short_borrow.py`).

The development shallowly embeds the pipeline's core data transformations:
a pandas `DataFrame` becomes a list of column names together with rows of
cells, and the parser, change-tracking merger, deduplicator and compiler
become Lean functions over that representation.  Python string methods
(`strip`, `upper`, `split`, `startswith`) are re-implemented structurally
over `List Char` so that all definitions are executable and decidable.
-/

namespace StockLoan

/-- A cell of a data frame: either a missing value (pandas `NaN` / `pd.NA`),
a string, a number (result of `pd.to_numeric`), or a timestamp
(a `datetime`, modelled as a natural number). -/
inductive Cell where
  | null : Cell
  | str : String → Cell
  | num : Rat → Cell
  | time : Nat → Cell
deriving DecidableEq

/-- Models `pd.isna` on a cell. -/
def isna : Cell → Bool
  | Cell.null => true
  | _ => false

/-- A pandas `DataFrame`: an ordered list of column names, and rows whose
cells are matched with the columns positionally. -/
structure DataFrame where
  cols : List String
  rows : List (List Cell)
deriving DecidableEq

/-- A data frame is well-formed when every row has exactly one cell per
column (pandas data frames are rectangular by construction). -/
def Wellformed (df : DataFrame) : Prop :=
  ∀ r ∈ df.rows, r.length = df.cols.length

instance (df : DataFrame) : Decidable (Wellformed df) := by
  unfold Wellformed; infer_instance

/-- Label-based cell lookup (`row[col]` in pandas): the cell at the first
position whose column name is `col`; `null` when the column is absent. -/
def rowGet : List String → List Cell → String → Cell
  | [], _, _ => Cell.null
  | _ :: _, [], _ => Cell.null
  | c :: cs, v :: vs, col => if c = col then v else rowGet cs vs col

/-- Label-based cell update: replace the cell at the first position whose
column name is `col`. -/
def rowSet : List String → List Cell → String → Cell → List Cell
  | [], row, _, _ => row
  | _ :: _, [], _, _ => []
  | c :: cs, v :: vs, col, nv => if c = col then nv :: vs else v :: rowSet cs vs col nv

/-- Models the pandas column assignment `df[c] = vals` with one value per
row: overwrite the column if present, append it otherwise. -/
def assignCol (df : DataFrame) (c : String) (vals : List Cell) : DataFrame :=
  if c ∈ df.cols then
    ⟨df.cols, (df.rows.zip vals).map fun rv => rowSet df.cols rv.1 c rv.2⟩
  else
    ⟨df.cols ++ [c], (df.rows.zip vals).map fun rv => rv.1 ++ [rv.2]⟩

/-- Models the pandas scalar column assignment `df[c] = v`. -/
def assignConst (df : DataFrame) (c : String) (v : Cell) : DataFrame :=
  assignCol df c (df.rows.map fun _ => v)

/-- Models applying a cell transformation to one column (`df[c] = f(df[c])`);
the frame is unchanged when the column is absent. -/
def mapCol (df : DataFrame) (c : String) (f : Cell → Cell) : DataFrame :=
  if c ∈ df.cols then
    ⟨df.cols, df.rows.map fun r => rowSet df.cols r c (f (rowGet df.cols r c))⟩
  else df

/-- The cell of row `i` of `df` in column `c`. -/
def colValue (df : DataFrame) (i : Nat) (c : String) : Cell :=
  rowGet df.cols (df.rows.getD i []) c

/-! ### Configuration constants of the pipeline -/

/-- `SYMBOL_COL = "SYM"` from the source. -/
def SYMBOL_COL : String := "SYM"

/-- `CHANGE_COLS = ["AVAILABLE", "FEERATE", "REBATERATE"]` from the source:
the columns whose changes trigger a new timestamp. -/
def CHANGE_COLS : List String := ["AVAILABLE", "FEERATE", "REBATERATE"]

/-! ### Python string helpers

Structural re-implementations of the Python string methods the pipeline
uses, over `List Char`, so that everything reduces in the kernel. -/

/-- Characters removed by Python `str.strip()` (ASCII whitespace). -/
def wsChar (c : Char) : Bool :=
  c = ' ' || c = '\t' || c = '\n' || c = '\r' || c.toNat = 11 || c.toNat = 12

/-- Models Python `str.strip()`. -/
def strTrim (s : String) : String :=
  String.mk (((s.data.dropWhile wsChar).reverse.dropWhile wsChar).reverse)

/-- Models Python `str.upper()` (ASCII). -/
def strUpper (s : String) : String :=
  String.mk (s.data.map Char.toUpper)

/-- Auxiliary for `strStarts`. -/
def charsStartWith : List Char → List Char → Bool
  | _, [] => true
  | [], _ :: _ => false
  | c :: cs, p :: ps => c = p && charsStartWith cs ps

/-- Models Python `str.startswith(p)`. -/
def strStarts (s p : String) : Bool := charsStartWith s.data p.data

/-- Split a character list on a separator; models Python `str.split(sep)`
(splitting the empty string yields one empty field). -/
def splitChar (sep : Char) (l : List Char) : List (List Char) :=
  l.foldr
    (fun c acc =>
      match acc with
      | [] => [[c]]
      | h :: t => if c = sep then [] :: h :: t else (c :: h) :: t)
    [[]]

/-- Models Python `line.split("|")`. -/
def strSplitPipe (s : String) : List String :=
  (splitChar '|' s.data).map String.mk

/-- Models Python `len(s)` on a string. -/
def strLen (s : String) : Nat := s.data.length

/-- Models Python `s[1:]` (drop the first character). -/
def strDropOne (s : String) : String := String.mk (s.data.drop 1)

/-! ### Change-tracking merger (`_merge_with_timestamp_tracking`) -/

/-- The inner comparison of the merge loop for one change column: changed
unless both values are null or both are equal (null-aware equality).
Mirrors the `pd.isna` branches of the source. -/
def cellChanged (nv ov : Cell) : Bool :=
  if isna nv && isna ov then false
  else isna nv || isna ov || nv ≠ ov

/-- Models `prev_df.set_index(SYMBOL_COL)` followed by `.loc[sym]` with
`.iloc[-1]` on duplicates: the last row of `prev` whose symbol cell is
`sym`, or `none` when the symbol is absent from the index. -/
def lastRowWithSym (prev : DataFrame) (sym : Cell) : Option (List Cell) :=
  (prev.rows.filter fun r => rowGet prev.cols r SYMBOL_COL = sym).getLast?

/-- The timestamp assigned to one row of the new snapshot by the merge loop:
the new timestamp for a brand-new symbol or when a compared change column
differs (null-aware); otherwise the previous row's `TIMESTAMP`
(`prev_row.get("TIMESTAMP", new_timestamp)`). -/
def mergedTimestamp (prev : DataFrame) (compareCols : List String)
    (newCols : List String) (newTs : Nat) (row : List Cell) : Cell :=
  match lastRowWithSym prev (rowGet newCols row SYMBOL_COL) with
  | none => Cell.time newTs
  | some prevRow =>
      if compareCols.any fun c =>
          cellChanged (rowGet newCols row c) (rowGet prev.cols prevRow c) then
        Cell.time newTs
      else if "TIMESTAMP" ∈ prev.cols then rowGet prev.cols prevRow "TIMESTAMP"
      else Cell.time newTs

/-- Models `_merge_with_timestamp_tracking(prev_df, new_df, new_timestamp)`:
returns `new_df` unchanged when either frame lacks the symbol column or no
change column is shared; otherwise assigns the `TIMESTAMP` column of
`new_df` from the per-row merge rule. -/
def mergeWithTimestampTracking (prev newDf : DataFrame) (newTs : Nat) : DataFrame :=
  if SYMBOL_COL ∉ prev.cols ∨ SYMBOL_COL ∉ newDf.cols then newDf
  else
    let compareCols :=
      CHANGE_COLS.filter fun c => decide (c ∈ newDf.cols) && decide (c ∈ prev.cols)
    if compareCols = [] then newDf
    else
      assignCol newDf "TIMESTAMP"
        (newDf.rows.map (mergedTimestamp prev compareCols newDf.cols newTs))

/-! ### Snapshot parser (`parse_ibkr_txt_file`) -/

/-- One step of the line-classification loop of `parse_ibkr_txt_file`:
the accumulator is `(header_line, data_lines)`.  Blank lines, `#BOF`/`#EOF`
markers and other `#`-comments are skipped (the value of the BOF timestamp
is not modelled, as no claim refers to it); a `#SYM|`/`#SYM\t` line (case
insensitive) becomes the header with its leading `#` stripped; anything
else is a data line. -/
def classifyStep (acc : Option String × List String) (raw : String) :
    Option String × List String :=
  let line := strTrim raw
  if line = "" then acc
  else if strStarts line "#BOF" then acc
  else if strStarts line "#EOF" then acc
  else if strStarts (strUpper line) "#SYM|" || strStarts (strUpper line) "#SYM\t" then
    (some (strDropOne line), acc.2)
  else if strStarts line "#" then acc
  else (acc.1, acc.2 ++ [line])

/-- Models the header parsing
`[c.strip().upper() for c in header_line.split("|") if c.strip()]`. -/
def headerColumns (header : String) : List String :=
  (((strSplitPipe header).map strTrim).filter fun c => c ≠ "").map strUpper

/-- Models padding short rows with `""` and truncating long rows to the
header's column count. -/
def padTruncate (n : Nat) (fields : List String) : List String :=
  (fields ++ List.replicate (n - fields.length) "").take n

/-- The row of string cells built from one data line. -/
def dataRowOfLine (n : Nat) (line : String) : List Cell :=
  (padTruncate n ((strSplitPipe line).map strTrim)).map Cell.str

/-- The symbol normalization `df[SYMBOL_COL].str.upper().str.strip()`
applied to one cell. -/
def cellUpperStrip : Cell → Cell
  | Cell.str s => Cell.str (strTrim (strUpper s))
  | c => c

/-- The row filter `df[df[SYMBOL_COL].str.len() > 0]` applied to one cell:
keep rows whose symbol is a non-empty string. -/
def symLenPos : Cell → Bool
  | Cell.str s => decide (0 < strLen s)
  | _ => false

/-- The placeholder replacement `df.replace({"NA": pd.NA, "": pd.NA})`
applied to one cell. -/
def cellReplaceNA : Cell → Cell
  | Cell.str s => if s = "NA" ∨ s = "" then Cell.null else Cell.str s
  | c => c

/-- Numeric coercion `pd.to_numeric(df[col], errors="coerce")` applied to
one cell; the partial string-to-number conversion itself is a parameter
`toNum` (its exact domain does not matter to any claim). -/
def cellToNumeric (toNum : String → Option Rat) : Cell → Cell
  | Cell.str s =>
      match toNum s with
      | some q => Cell.num q
      | none => Cell.null
  | Cell.num q => Cell.num q
  | _ => Cell.null

/-- Models `parse_ibkr_txt_file` on the list of lines of the file, with
`stem` the file name stem (for the `COUNTRY` column).  Returns `none` for
the two failure paths of the source (no header line, or no data rows). -/
def parseIbkrTxt (toNum : String → Option Rat) (lines : List String)
    (stem : String) : Option DataFrame :=
  let acc := lines.foldl classifyStep (none, [])
  match acc.1 with
  | none => none
  | some header =>
      let columns := headerColumns header
      let parsedRows := acc.2.map (dataRowOfLine columns.length)
      if parsedRows = [] then none
      else
        let df0 : DataFrame := ⟨columns, parsedRows⟩
        let df1 :=
          if SYMBOL_COL ∈ columns then
            let dfa := mapCol df0 SYMBOL_COL cellUpperStrip
            ⟨dfa.cols, dfa.rows.filter fun r => symLenPos (rowGet dfa.cols r SYMBOL_COL)⟩
          else df0
        let df2 : DataFrame := ⟨df1.cols, df1.rows.map fun r => r.map cellReplaceNA⟩
        let df3 := CHANGE_COLS.foldl (fun d c => mapCol d c (cellToNumeric toNum)) df2
        some (assignConst df3 "COUNTRY" (Cell.str (strUpper stem)))

/-! ### Per-file processing (`action_process` body) -/

/-- Models the body of the `action_process` loop for one source file:
parse, skip the file (leaving the stored history untouched) when parsing
fails or yields no rows, otherwise stamp `TIMESTAMP` with the resolved
extraction time `ts` and merge against the previous history when one
exists.  Returns the stored per-source history after the run. -/
def processSource (toNum : String → Option Rat) (prevHistory : Option DataFrame)
    (lines : List String) (stem : String) (ts : Nat) : Option DataFrame :=
  match parseIbkrTxt toNum lines stem with
  | none => prevHistory
  | some df =>
      if df.rows = [] then prevHistory
      else
        let stamped := assignConst df "TIMESTAMP" (Cell.time ts)
        some
          (match prevHistory with
          | none => stamped
          | some prev => mergeWithTimestampTracking prev stamped ts)

/-- One processing run over an already-parsed snapshot (the merge-relevant
tail of the `action_process` body): stamp every row with the extraction
time, then merge against the previous history when one exists. -/
def processStep (prev : Option DataFrame) (df : DataFrame) (ts : Nat) : DataFrame :=
  let stamped := assignConst df "TIMESTAMP" (Cell.time ts)
  match prev with
  | none => stamped
  | some p => mergeWithTimestampTracking p stamped ts

/-- Folding `processStep` over a sequence of snapshots with their
extraction times, starting from no stored history. -/
def processAll (snaps : List (DataFrame × Nat)) : Option DataFrame :=
  snaps.foldl (fun prev s => some (processStep prev s.1 s.2)) none

/-! ### Deduplicator (`action_resample`) and compiler (`action_compile`) -/

/-- The deduplication key: the tuple of values of all non-`TIMESTAMP`
columns (`dedup_cols = [c for c in df.columns if c != "TIMESTAMP"]`). -/
def dedupKey (cols : List String) (row : List Cell) : List Cell :=
  (cols.filter fun c => c ≠ "TIMESTAMP").map (rowGet cols row)

/-- Models `df.drop_duplicates(subset=dedup_cols, keep="last")` on the row
list: a row is dropped when a later row has the same key. -/
def dropDupLastAux (key : List Cell → List Cell) : List (List Cell) → List (List Cell)
  | [] => []
  | r :: rs =>
      if rs.any fun x => key x = key r then dropDupLastAux key rs
      else r :: dropDupLastAux key rs

/-- Models `df.drop_duplicates(subset=dedup_cols, keep="last")`. -/
def dropDuplicatesLast (df : DataFrame) : DataFrame :=
  ⟨df.cols, dropDupLastAux (dedupKey df.cols) df.rows⟩

/-- Models the per-file body of `action_resample`: re-clean symbols, drop
empty-symbol rows, then deduplicate keeping the last occurrence. -/
def resampleDF (df : DataFrame) : DataFrame :=
  let df1 :=
    if SYMBOL_COL ∈ df.cols then
      let dfa := mapCol df SYMBOL_COL cellUpperStrip
      ⟨dfa.cols, dfa.rows.filter fun r => symLenPos (rowGet dfa.cols r SYMBOL_COL)⟩
    else df
  dropDuplicatesLast df1

/-- Models `pd.concat(frames, ignore_index=True)`: columns are the union in
order of first appearance; each row is aligned to the union by column name,
absent columns filled with null. -/
def concatFrames (frames : List DataFrame) : DataFrame :=
  let cols := frames.foldl (fun acc df => acc ++ df.cols.filter fun c => c ∉ acc) []
  ⟨cols,
    frames.foldl (fun acc df => acc ++ df.rows.map fun r => cols.map (rowGet df.cols r)) []⟩

/-- Models `action_compile` on the resampled folder's files (name and
contents): excludes the compiler's own prior output `master.pkl.gz`,
concatenates the rest and deduplicates on all non-`TIMESTAMP` columns
keeping the last occurrence. -/
def actionCompile (files : List (String × DataFrame)) : DataFrame :=
  let inputs := files.filter fun f => f.1 ≠ "master.pkl.gz"
  dropDuplicatesLast (concatFrames (inputs.map fun f => f.2))

/-! ### Tracked-record observers used by the claims -/

/-- The timestamp carried by a symbol's tracked record in a history: the
`TIMESTAMP` cell of the last row with that symbol. -/
def trackedTimestamp (df : DataFrame) (sym : Cell) : Option Cell :=
  (lastRowWithSym df sym).map fun r => rowGet df.cols r "TIMESTAMP"

/-- The change-column tuple of a symbol's tracked record in a data frame
(`[]` when the symbol is absent). -/
def tupleOf (df : DataFrame) (sym : Cell) : List Cell :=
  match lastRowWithSym df sym with
  | some r => CHANGE_COLS.map (rowGet df.cols r)
  | none => []

/-- Given the per-snapshot change-column tuples of a symbol, the index of
the earliest snapshot of the run at which the tuple last differed from its
predecessor: the greatest `j ≤ k` at which a change occurred (index `0`,
the first appearance, when the tuple never changed up to `k`). -/
def lastChangeIdx (tuples : List (List Cell)) (k : Nat) : Nat :=
  Nat.findGreatest (fun j => 0 < j ∧ tuples.getD j [] ≠ tuples.getD (j - 1) []) k

/-- The spec's null-aware difference on one change column: two nulls are
equal; a null against a non-null, or two unequal non-null values, count as
a change. -/
def NullAwareDiff (a b : Cell) : Prop :=
  ¬(a = Cell.null ∧ b = Cell.null) ∧ (a = Cell.null ∨ b = Cell.null ∨ a ≠ b)

instance (a b : Cell) : Decidable (NullAwareDiff a b) := by
  unfold NullAwareDiff; infer_instance

/-- A raw line is a recognizable header line: after stripping, its
upper-cased form starts with the header sentinel `#SYM|` (or `#SYM` + tab),
exactly the test of the parser's classification loop. -/
def isHeaderLine (raw : String) : Bool :=
  strStarts (strUpper (strTrim raw)) "#SYM|" || strStarts (strUpper (strTrim raw)) "#SYM\t"

/-! ### Basic lemmas about rows and columns -/

theorem rowSet_length (cols : List String) (row : List Cell) (c : String) (v : Cell) :
    (rowSet cols row c v).length = row.length := by
  induction cols generalizing row with
  | nil => rfl
  | cons c₀ cs ih =>
    cases row with
    | nil => rfl
    | cons v₀ vs =>
      simp only [rowSet]
      split <;> simp [ih]

theorem rowGet_rowSet_ne (cols : List String) (row : List Cell) {c c' : String}
    (v : Cell) (h : c' ≠ c) :
    rowGet cols (rowSet cols row c v) c' = rowGet cols row c' := by
  induction cols generalizing row with
  | nil => rfl
  | cons c₀ cs ih =>
    cases row with
    | nil => rfl
    | cons v₀ vs =>
      by_cases hc : c₀ = c
      · subst hc
        have hne : ¬ c₀ = c' := fun hh => h hh.symm
        simp [rowSet, rowGet, hne]
      · by_cases hc' : c₀ = c'
        · subst hc'
          simp [rowSet, rowGet, hc]
        · simp [rowSet, rowGet, hc, hc', ih]

theorem rowGet_rowSet_self (cols : List String) (row : List Cell) {c : String}
    (v : Cell) (hc : c ∈ cols) (hlen : cols.length ≤ row.length) :
    rowGet cols (rowSet cols row c v) c = v := by
  induction cols generalizing row with
  | nil => cases hc
  | cons c₀ cs ih =>
    cases row with
    | nil => simp at hlen
    | cons v₀ vs =>
      by_cases h : c₀ = c
      · simp [rowSet, rowGet, h]
      · have hcs : c ∈ cs := (List.mem_cons.mp hc).resolve_left fun hh => h hh.symm
        simp only [rowSet, if_neg h, rowGet, if_neg h]
        exact ih vs hcs (Nat.le_of_succ_le_succ hlen)

theorem rowGet_of_not_mem (cols : List String) (row : List Cell) {c : String}
    (hc : c ∉ cols) : rowGet cols row c = Cell.null := by
  induction cols generalizing row with
  | nil => rfl
  | cons c₀ cs ih =>
    cases row with
    | nil => rfl
    | cons v₀ vs =>
      have h₀ : c₀ ≠ c := fun hh => hc (by rw [← hh]; exact List.mem_cons_self c₀ cs)
      have hcs : c ∉ cs := fun hh => hc (List.mem_cons_of_mem _ hh)
      simp only [rowGet, if_neg h₀]
      exact ih vs hcs

theorem rowGet_append_of_mem (cols cols₂ : List String) (row row₂ : List Cell)
    {c : String} (hc : c ∈ cols) (hlen : cols.length ≤ row.length) :
    rowGet (cols ++ cols₂) (row ++ row₂) c = rowGet cols row c := by
  induction cols generalizing row with
  | nil => cases hc
  | cons c₀ cs ih =>
    cases row with
    | nil => simp at hlen
    | cons v₀ vs =>
      by_cases h : c₀ = c
      · simp [rowGet, h]
      · have hcs : c ∈ cs := (List.mem_cons.mp hc).resolve_left fun hh => h hh.symm
        simp only [List.cons_append, rowGet, if_neg h]
        exact ih vs hcs (Nat.le_of_succ_le_succ hlen)

theorem rowGet_append_of_not_mem (cols cols₂ : List String) (row row₂ : List Cell)
    {c : String} (hc : c ∉ cols) (hlen : row.length = cols.length) :
    rowGet (cols ++ cols₂) (row ++ row₂) c = rowGet cols₂ row₂ c := by
  induction cols generalizing row with
  | nil =>
    cases row with
    | nil => rfl
    | cons v₀ vs => simp at hlen
  | cons c₀ cs ih =>
    cases row with
    | nil => simp at hlen
    | cons v₀ vs =>
      have h₀ : c₀ ≠ c := fun hh => hc (by rw [← hh]; exact List.mem_cons_self c₀ cs)
      have hcs : c ∉ cs := fun hh => hc (List.mem_cons_of_mem _ hh)
      simp only [List.cons_append, rowGet, if_neg h₀]
      exact ih vs hcs (Nat.succ_injective hlen)

theorem getD_map_of_lt {α β : Type} (g : α → β) (l : List α) (i : Nat)
    (h : i < l.length) (d : α) (d' : β) : (l.map g).getD i d' = g (l.getD i d) := by
  induction l generalizing i with
  | nil => simp at h
  | cons a as ih =>
    cases i with
    | zero => rfl
    | succ n => exact ih n (Nat.lt_of_succ_lt_succ h)

/-! ### Lemmas about `assignCol` -/

theorem assignCol_cols (df : DataFrame) (c : String) (vals : List Cell) :
    (assignCol df c vals).cols = if c ∈ df.cols then df.cols else df.cols ++ [c] := by
  unfold assignCol
  split <;> simp_all

theorem assignCol_map_rows (df : DataFrame) (c : String) (f : List Cell → Cell) :
    (assignCol df c (df.rows.map f)).rows =
      if c ∈ df.cols then df.rows.map fun r => rowSet df.cols r c (f r)
      else df.rows.map fun r => r ++ [f r] := by
  have hz : df.rows.zip (df.rows.map f) = df.rows.map fun r => (r, f r) := by
    have := List.zip_map' (fun r : List Cell => r) f df.rows
    simpa using this
  unfold assignCol
  split <;> simp_all [List.map_map, Function.comp]

theorem assignConst_rows (df : DataFrame) (c : String) (v : Cell) :
    (assignConst df c v).rows =
      if c ∈ df.cols then df.rows.map fun r => rowSet df.cols r c v
      else df.rows.map fun r => r ++ [v] := by
  unfold assignConst
  exact assignCol_map_rows df c fun _ => v

/-- Structural description of `assignCol df c (df.rows.map f)`: the result
maps a per-row function `g` over the rows, reads back `f r` in column `c`,
leaves every other column of every row unchanged, and keeps rows
rectangular. -/
theorem assignCol_map_spec (df : DataFrame) (c : String) (f : List Cell → Cell)
    (hwf : Wellformed df) :
    ∃ g : List Cell → List Cell,
      (assignCol df c (df.rows.map f)).rows = df.rows.map g ∧
      (∀ r ∈ df.rows, ∀ c', c' ≠ c →
        rowGet (assignCol df c (df.rows.map f)).cols (g r) c' = rowGet df.cols r c') ∧
      (∀ r ∈ df.rows, rowGet (assignCol df c (df.rows.map f)).cols (g r) c = f r) ∧
      (∀ r ∈ df.rows, (g r).length = (assignCol df c (df.rows.map f)).cols.length) := by
  by_cases hmem : c ∈ df.cols
  · refine ⟨fun r => rowSet df.cols r c (f r), ?_, ?_, ?_, ?_⟩
    · rw [assignCol_map_rows, if_pos hmem]
    · intro r _ c' hne
      rw [assignCol_cols, if_pos hmem]
      exact rowGet_rowSet_ne df.cols r (f r) hne
    · intro r hr
      rw [assignCol_cols, if_pos hmem]
      exact rowGet_rowSet_self df.cols r (f r) hmem (le_of_eq (hwf r hr).symm)
    · intro r hr
      rw [assignCol_cols, if_pos hmem, rowSet_length]
      exact hwf r hr
  · refine ⟨fun r => r ++ [f r], ?_, ?_, ?_, ?_⟩
    · rw [assignCol_map_rows, if_neg hmem]
    · intro r hr c' hne
      rw [assignCol_cols, if_neg hmem]
      by_cases hc' : c' ∈ df.cols
      · exact rowGet_append_of_mem df.cols [c] r [f r] hc' (le_of_eq (hwf r hr).symm)
      · rw [rowGet_append_of_not_mem df.cols [c] r [f r] hc' (hwf r hr),
          rowGet_of_not_mem df.cols r hc']
        have hcc : ¬ c = c' := fun hh => hne hh.symm
        simp [rowGet, hcc]
    · intro r hr
      rw [assignCol_cols, if_neg hmem,
        rowGet_append_of_not_mem df.cols [c] r [f r] hmem (hwf r hr)]
      simp [rowGet]
    · intro r hr
      rw [assignCol_cols, if_neg hmem]
      simp [hwf r hr]

/-! ### Lemmas about null-aware change detection -/

theorem cellChanged_eq_false_iff (a b : Cell) : cellChanged a b = false ↔ a = b := by
  cases a <;> cases b <;> simp [cellChanged, isna]

theorem cellChanged_eq_true_iff (a b : Cell) : cellChanged a b = true ↔ a ≠ b := by
  rw [← Bool.not_eq_false, not_iff_not.symm]
  simp [cellChanged_eq_false_iff]

theorem nullAwareDiff_iff_cellChanged (a b : Cell) :
    NullAwareDiff a b ↔ cellChanged a b = true := by
  rw [cellChanged_eq_true_iff]
  constructor
  · rintro ⟨hnn, h⟩
    rcases h with h | h | h
    · intro he
      exact hnn ⟨h, he ▸ h⟩
    · intro he
      exact hnn ⟨he ▸ h, h⟩
    · exact h
  · intro h
    refine ⟨fun ⟨ha, hb⟩ => h (ha.trans hb.symm), ?_⟩
    exact Or.inr (Or.inr h)

/-! ### Lemmas about filtered and mapped row lists -/

theorem mem_of_getLast?_eq_some {α : Type} {l : List α} {a : α}
    (h : l.getLast? = some a) : a ∈ l := by
  induction l with
  | nil => simp [List.getLast?] at h
  | cons x xs ih =>
    cases xs with
    | nil =>
      simp [List.getLast?] at h
      simp [h]
    | cons y ys =>
      rw [List.getLast?_cons_cons] at h
      exact List.mem_cons_of_mem _ (ih h)

theorem filter_map_comm {α β : Type} (g : α → β) (p : β → Bool) (q : α → Bool)
    (l : List α) (h : ∀ a ∈ l, p (g a) = q a) :
    (l.map g).filter p = (l.filter q).map g := by
  induction l with
  | nil => rfl
  | cons a as ih =>
    have ha := h a (List.mem_cons_self a as)
    have ih' := ih fun x hx => h x (List.mem_cons_of_mem _ hx)
    simp only [List.map_cons, List.filter_cons, ha]
    cases q a <;> simp [ih']

/-- The last row with a given symbol commutes with any per-row
transformation that preserves the symbol cell. -/
theorem lastRowWithSym_map (cols cols' : List String) (rows : List (List Cell))
    (g : List Cell → List Cell) (sym : Cell)
    (hsym : ∀ r ∈ rows, rowGet cols' (g r) SYMBOL_COL = rowGet cols r SYMBOL_COL) :
    lastRowWithSym ⟨cols', rows.map g⟩ sym = (lastRowWithSym ⟨cols, rows⟩ sym).map g := by
  unfold lastRowWithSym
  simp only
  rw [filter_map_comm g _ _ rows (fun r hr => by rw [hsym r hr]), List.getLast?_map]

theorem lastRowWithSym_spec (df : DataFrame) (sym : Cell) (r : List Cell)
    (h : lastRowWithSym df sym = some r) :
    r ∈ df.rows ∧ rowGet df.cols r SYMBOL_COL = sym := by
  have hm := mem_of_getLast?_eq_some h
  have := List.mem_filter.mp hm
  exact ⟨this.1, by simpa using this.2⟩

/-! ### Lemmas about keep-last deduplication -/

theorem getLast?_cons_of_ne_nil {α : Type} (a : α) {l : List α} (h : l ≠ []) :
    (a :: l).getLast? = l.getLast? := by
  cases l with
  | nil => exact absurd rfl h
  | cons b bs => exact List.getLast?_cons_cons

theorem dropDupLastAux_sublist (key : List Cell → List Cell) (l : List (List Cell)) :
    (dropDupLastAux key l).Sublist l := by
  induction l with
  | nil => exact List.Sublist.refl []
  | cons r rs ih =>
    simp only [dropDupLastAux]
    split
    · exact ih.trans (List.sublist_cons_self r rs)
    · exact ih.cons₂ r

theorem filter_dropDupLastAux (key : List Cell → List Cell) (l : List (List Cell))
    (k : List Cell) :
    ((dropDupLastAux key l).filter fun r => key r = k) =
      ((l.filter fun r => key r = k).getLast?).toList := by
  induction l with
  | nil => rfl
  | cons r rs ih =>
    simp only [dropDupLastAux]
    by_cases hany : rs.any (fun x => key x = key r) = true
    · rw [if_pos hany, ih, List.filter_cons]
      by_cases hk : key r = k
      · rw [if_pos (show decide (key r = k) = true from decide_eq_true hk)]
        obtain ⟨x, hx, hxk⟩ := List.any_eq_true.mp hany
        have hne : (rs.filter fun r => decide (key r = k)) ≠ [] := by
          intro hnil
          have hx' := List.filter_eq_nil_iff.mp hnil x hx
          exact hx' (by simp [of_decide_eq_true hxk, hk])
        rw [getLast?_cons_of_ne_nil r hne]
      · rw [if_neg (show ¬ decide (key r = k) = true by simp [hk])]
    · rw [if_neg hany, List.filter_cons, List.filter_cons]
      by_cases hk : key r = k
      · have hnil : (rs.filter fun r => decide (key r = k)) = [] := by
          rw [List.filter_eq_nil_iff]
          intro x hx
          simp only [decide_eq_true_eq]
          intro hxk
          exact hany (List.any_eq_true.mpr ⟨x, hx, by simp [hxk, hk]⟩)
        rw [if_pos (show decide (key r = k) = true from decide_eq_true hk),
          if_pos (show decide (key r = k) = true from decide_eq_true hk), ih, hnil]
        rfl
      · rw [if_neg (show ¬ decide (key r = k) = true by simp [hk]),
          if_neg (show ¬ decide (key r = k) = true by simp [hk]), ih]

theorem dropDupLastAux_keys_nodup (key : List Cell → List Cell)
    (l : List (List Cell)) : ((dropDupLastAux key l).map key).Nodup := by
  induction l with
  | nil => exact List.nodup_nil
  | cons r rs ih =>
    simp only [dropDupLastAux]
    split
    · exact ih
    · next hany =>
      simp only [List.map_cons, List.nodup_cons]
      refine ⟨?_, ih⟩
      intro hmem
      obtain ⟨x, hx, hxk⟩ := List.mem_map.mp hmem
      exact hany (List.any_eq_true.mpr
        ⟨x, (dropDupLastAux_sublist key rs).subset hx, by simp [hxk]⟩)

theorem dropDupLastAux_eq_self_of_nodup (key : List Cell → List Cell)
    (l : List (List Cell)) (h : (l.map key).Nodup) : dropDupLastAux key l = l := by
  induction l with
  | nil => rfl
  | cons r rs ih =>
    simp only [List.map_cons, List.nodup_cons] at h
    have hany : rs.any (fun x => key x = key r) = false := by
      rw [Bool.eq_false_iff]
      intro hc
      obtain ⟨x, hx, hxk⟩ := List.any_eq_true.mp hc
      exact h.1 (List.mem_map.mpr ⟨x, hx, of_decide_eq_true hxk⟩)
    simp only [dropDupLastAux, hany]
    rw [ih h.2]
    simp

theorem dropDuplicatesLast_idem (df : DataFrame) :
    dropDuplicatesLast (dropDuplicatesLast df) = dropDuplicatesLast df := by
  unfold dropDuplicatesLast
  simp only
  rw [dropDupLastAux_eq_self_of_nodup _ _ (dropDupLastAux_keys_nodup _ _)]

/-! ### Parser classification lemmas -/

theorem getD_mem_of_lt {α : Type} (l : List α) (i : Nat) (d : α)
    (h : i < l.length) : l.getD i d ∈ l := by
  induction l generalizing i with
  | nil => simp at h
  | cons a as ih =>
    cases i with
    | zero => exact List.mem_cons_self a as
    | succ n => exact List.mem_cons_of_mem a (ih n (Nat.lt_of_succ_lt_succ h))

/-- The classification loop never records a header when no line of the file
is a recognizable header line. -/
theorem classify_fold_fst_of_no_header (lines : List String)
    (acc : Option String × List String)
    (h : ∀ raw ∈ lines, isHeaderLine raw = false) :
    (lines.foldl classifyStep acc).1 = acc.1 := by
  induction lines generalizing acc with
  | nil => rfl
  | cons raw rest ih =>
    have hraw := h raw (List.mem_cons_self raw rest)
    have hrest : ∀ r ∈ rest, isHeaderLine r = false :=
      fun r hr => h r (List.mem_cons_of_mem _ hr)
    rw [List.foldl_cons, ih _ hrest]
    simp only [classifyStep]
    split_ifs with h1 h2 h3 h4 h5 <;> try rfl
    exact absurd h4 (by simp [isHeaderLine] at hraw; simp [hraw])

/-! ### Claim C3 -/

/-- Claim C3, counterexample: a history with two rows that agree on all
non-timestamp columns, where the row with the larger timestamp `t2 = 2`
appears before the row with `t1 = 1`, is compacted to the row with the
smaller timestamp — `drop_duplicates(keep="last")` keeps the positionally
last occurrence, not the one with the latest timestamp. -/
theorem dedup_latest_timestamp_counterexample :
    (resampleDF ⟨["SYM", "TIMESTAMP"],
        [[Cell.str "A", Cell.time 2], [Cell.str "A", Cell.time 1]]⟩).rows =
      [[Cell.str "A", Cell.time 1]] := by decide

/-- Claim C3 (amended): for every history, compaction outputs at most one
row per distinct tuple of all non-timestamp columns, and for each such
tuple it keeps exactly the occurrence appearing last in input order
(regardless of timestamp values).  The same rule applies in the Compiler
across the concatenation of all sources (its own prior `master.pkl.gz`
excluded). -/
theorem dedup_keeps_positionally_last (df : DataFrame)
    (files : List (String × DataFrame)) (k : List Cell) :
    (((dropDuplicatesLast df).rows.filter fun r => dedupKey df.cols r = k) =
        ((df.rows.filter fun r => dedupKey df.cols r = k).getLast?).toList) ∧
      ((dropDuplicatesLast df).rows.map (dedupKey df.cols)).Nodup ∧
      (((actionCompile files).rows.filter fun r =>
            dedupKey (actionCompile files).cols r = k) =
        (((concatFrames ((files.filter fun f => f.1 ≠ "master.pkl.gz").map
              fun f => f.2)).rows.filter fun r =>
            dedupKey (actionCompile files).cols r = k).getLast?).toList) := by
  refine ⟨filter_dropDupLastAux _ _ _, dropDupLastAux_keys_nodup _ _, ?_⟩
  exact filter_dropDupLastAux _ _ _

/-! ### Structural lemmas about the merge -/

/-- In every branch of the merge, the output rows are a per-row image of
the new snapshot's rows that leaves all non-`TIMESTAMP` columns unchanged,
and the output columns are the new snapshot's columns possibly extended by
`TIMESTAMP`. -/
theorem merge_frame_spec (prev newDf : DataFrame) (T : Nat) (hwf : Wellformed newDf) :
    ∃ g : List Cell → List Cell,
      (mergeWithTimestampTracking prev newDf T).rows = newDf.rows.map g ∧
      (∀ x ∈ (mergeWithTimestampTracking prev newDf T).cols,
        x ∈ newDf.cols ∨ x = "TIMESTAMP") ∧
      (∀ r ∈ newDf.rows, ∀ c', c' ≠ "TIMESTAMP" →
        rowGet (mergeWithTimestampTracking prev newDf T).cols (g r) c' =
          rowGet newDf.cols r c') ∧
      (∀ r ∈ newDf.rows,
        (g r).length = (mergeWithTimestampTracking prev newDf T).cols.length) := by
  by_cases hg : SYMBOL_COL ∉ prev.cols ∨ SYMBOL_COL ∉ newDf.cols
  · have heq : mergeWithTimestampTracking prev newDf T = newDf := by
      unfold mergeWithTimestampTracking
      rw [if_pos hg]
    refine ⟨id, ?_, ?_, ?_, ?_⟩ <;> rw [heq]
    · exact (List.map_id _).symm
    · exact fun x hx => Or.inl hx
    · exact fun r hr c' hc => rfl
    · exact fun r hr => hwf r hr
  · by_cases hfil : (CHANGE_COLS.filter fun c =>
        decide (c ∈ newDf.cols) && decide (c ∈ prev.cols)) = []
    · have heq : mergeWithTimestampTracking prev newDf T = newDf := by
        unfold mergeWithTimestampTracking
        rw [if_neg hg]
        simp [hfil]
      refine ⟨id, ?_, ?_, ?_, ?_⟩ <;> rw [heq]
      · exact (List.map_id _).symm
      · exact fun x hx => Or.inl hx
      · exact fun r hr c' hc => rfl
      · exact fun r hr => hwf r hr
    · have heq : mergeWithTimestampTracking prev newDf T =
          assignCol newDf "TIMESTAMP"
            (newDf.rows.map (mergedTimestamp prev
              (CHANGE_COLS.filter fun c =>
                decide (c ∈ newDf.cols) && decide (c ∈ prev.cols))
              newDf.cols T)) := by
        unfold mergeWithTimestampTracking
        rw [if_neg hg]
        simp [hfil]
      obtain ⟨g, hrows, hne, hself, hlen⟩ :=
        assignCol_map_spec newDf "TIMESTAMP"
          (mergedTimestamp prev
            (CHANGE_COLS.filter fun c =>
              decide (c ∈ newDf.cols) && decide (c ∈ prev.cols))
            newDf.cols T) hwf
      refine ⟨g, ?_, ?_, ?_, ?_⟩ <;> rw [heq]
      · exact hrows
      · intro x hx
        rw [assignCol_cols] at hx
        by_cases hmem : "TIMESTAMP" ∈ newDf.cols
        · rw [if_pos hmem] at hx
          exact Or.inl hx
        · rw [if_neg hmem] at hx
          rcases List.mem_append.mp hx with hx | hx
          · exact Or.inl hx
          · exact Or.inr (List.mem_singleton.mp hx)
      · exact fun r hr c' hc => hne r hr c' hc
      · exact fun r hr => hlen r hr

/-- In the full-schema case (symbol column in both frames, every change
column in both frames) the merge is exactly the `TIMESTAMP` column
assignment from the per-row merge rule over all three change columns. -/
theorem merge_eq_assign_full (prev newDf : DataFrame) (T : Nat)
    (hsymp : SYMBOL_COL ∈ prev.cols) (hsymn : SYMBOL_COL ∈ newDf.cols)
    (hchg : ∀ c ∈ CHANGE_COLS, c ∈ prev.cols ∧ c ∈ newDf.cols) :
    mergeWithTimestampTracking prev newDf T =
      assignCol newDf "TIMESTAMP"
        (newDf.rows.map (mergedTimestamp prev CHANGE_COLS newDf.cols T)) := by
  unfold mergeWithTimestampTracking
  have hguard : ¬ (SYMBOL_COL ∉ prev.cols ∨ SYMBOL_COL ∉ newDf.cols) := by
    push_neg
    exact ⟨hsymp, hsymn⟩
  rw [if_neg hguard]
  have hfil : (CHANGE_COLS.filter fun c =>
      decide (c ∈ newDf.cols) && decide (c ∈ prev.cols)) = CHANGE_COLS := by
    rw [List.filter_eq_self]
    intro c hc
    simp [(hchg c hc).1, (hchg c hc).2]
  simp only [hfil]
  rw [if_neg (by decide : ¬ (CHANGE_COLS = ([] : List String)))]

/-! ### Claim C9 -/

/-- Claim C9: the merge is a frame transformation — the merged output has
exactly one row per row of the new snapshot, in the same order; its
columns are those of the new snapshot possibly extended by `TIMESTAMP`;
and every column other than `TIMESTAMP` holds exactly the new snapshot's
value in every row. -/
theorem merge_frame_property (prev newDf : DataFrame) (T : Nat)
    (hwf : Wellformed newDf) :
    (mergeWithTimestampTracking prev newDf T).rows.length = newDf.rows.length ∧
      (∀ x ∈ (mergeWithTimestampTracking prev newDf T).cols,
        x ∈ newDf.cols ∨ x = "TIMESTAMP") ∧
      ∀ i < newDf.rows.length, ∀ c, c ≠ "TIMESTAMP" →
        colValue (mergeWithTimestampTracking prev newDf T) i c = colValue newDf i c := by
  obtain ⟨g, hrows, hcols, hne, _⟩ := merge_frame_spec prev newDf T hwf
  refine ⟨by rw [hrows, List.length_map], hcols, ?_⟩
  intro i hi c hc
  unfold colValue
  rw [hrows, getD_map_of_lt g newDf.rows i hi [] []]
  exact hne _ (getD_mem_of_lt newDf.rows i [] hi) c hc

/-- Witness for the C9 theorem at a concrete merge. -/
theorem merge_frame_property_witness :
    Wellformed (⟨["SYM", "AVAILABLE", "FEERATE", "REBATERATE", "TIMESTAMP"],
        [[Cell.str "A", Cell.num 9, Cell.num 1, Cell.num 2, Cell.time 7]]⟩ : DataFrame) ∧
      ∀ i < 1, ∀ c, c ≠ "TIMESTAMP" →
        colValue
            (mergeWithTimestampTracking
              ⟨["SYM", "AVAILABLE", "FEERATE", "REBATERATE", "TIMESTAMP"],
                [[Cell.str "A", Cell.num 9, Cell.num 9, Cell.num 2, Cell.time 5]]⟩
              ⟨["SYM", "AVAILABLE", "FEERATE", "REBATERATE", "TIMESTAMP"],
                [[Cell.str "A", Cell.num 9, Cell.num 1, Cell.num 2, Cell.time 7]]⟩ 7)
            i c =
          colValue
            ⟨["SYM", "AVAILABLE", "FEERATE", "REBATERATE", "TIMESTAMP"],
              [[Cell.str "A", Cell.num 9, Cell.num 1, Cell.num 2, Cell.time 7]]⟩ i c :=
  ⟨by decide,
    (merge_frame_property
      ⟨["SYM", "AVAILABLE", "FEERATE", "REBATERATE", "TIMESTAMP"],
        [[Cell.str "A", Cell.num 9, Cell.num 9, Cell.num 2, Cell.time 5]]⟩
      ⟨["SYM", "AVAILABLE", "FEERATE", "REBATERATE", "TIMESTAMP"],
        [[Cell.str "A", Cell.num 9, Cell.num 1, Cell.num 2, Cell.time 7]]⟩ 7
      (by decide)).2.2⟩

/-! ### Claim C8 -/

/-- Claim C8: a symbol absent from the new snapshot never appears in the
merged output — the merge reflects only rows of the new snapshot (one
output row per new-snapshot row), so symbols only present in the previous
history are dropped. -/
theorem absent_symbols_dropped (prev newDf : DataFrame) (T : Nat) (sym : Cell)
    (hwf : Wellformed newDf)
    (habsent : ∀ r ∈ newDf.rows, rowGet newDf.cols r SYMBOL_COL ≠ sym) :
    (mergeWithTimestampTracking prev newDf T).rows.length = newDf.rows.length ∧
      ∀ r ∈ (mergeWithTimestampTracking prev newDf T).rows,
        rowGet (mergeWithTimestampTracking prev newDf T).cols r SYMBOL_COL ≠ sym := by
  obtain ⟨g, hrows, _, hne, _⟩ := merge_frame_spec prev newDf T hwf
  refine ⟨by rw [hrows, List.length_map], ?_⟩
  intro r hr
  rw [hrows] at hr
  obtain ⟨r₀, hr₀, rfl⟩ := List.mem_map.mp hr
  rw [hne r₀ hr₀ SYMBOL_COL (by decide)]
  exact habsent r₀ hr₀

/-- Witness for the C8 theorem: the previous history carries symbol `B`,
the new snapshot only `A`, and `B` is gone from the merged output. -/
theorem absent_symbols_dropped_witness :
    Wellformed (⟨["SYM", "AVAILABLE", "FEERATE", "REBATERATE", "TIMESTAMP"],
        [[Cell.str "A", Cell.num 9, Cell.num 1, Cell.num 2, Cell.time 7]]⟩ : DataFrame) ∧
      (∀ r ∈ (⟨["SYM", "AVAILABLE", "FEERATE", "REBATERATE", "TIMESTAMP"],
          [[Cell.str "A", Cell.num 9, Cell.num 1, Cell.num 2, Cell.time 7]]⟩ :
            DataFrame).rows,
        rowGet ["SYM", "AVAILABLE", "FEERATE", "REBATERATE", "TIMESTAMP"] r SYMBOL_COL ≠
          Cell.str "B") ∧
      ∀ r ∈ (mergeWithTimestampTracking
          ⟨["SYM", "AVAILABLE", "FEERATE", "REBATERATE", "TIMESTAMP"],
            [[Cell.str "B", Cell.num 9, Cell.num 1, Cell.num 2, Cell.time 5]]⟩
          ⟨["SYM", "AVAILABLE", "FEERATE", "REBATERATE", "TIMESTAMP"],
            [[Cell.str "A", Cell.num 9, Cell.num 1, Cell.num 2, Cell.time 7]]⟩ 7).rows,
        rowGet (mergeWithTimestampTracking
            ⟨["SYM", "AVAILABLE", "FEERATE", "REBATERATE", "TIMESTAMP"],
              [[Cell.str "B", Cell.num 9, Cell.num 1, Cell.num 2, Cell.time 5]]⟩
            ⟨["SYM", "AVAILABLE", "FEERATE", "REBATERATE", "TIMESTAMP"],
              [[Cell.str "A", Cell.num 9, Cell.num 1, Cell.num 2, Cell.time 7]]⟩ 7).cols
          r SYMBOL_COL ≠ Cell.str "B" :=
  ⟨by decide, by decide,
    (absent_symbols_dropped
      ⟨["SYM", "AVAILABLE", "FEERATE", "REBATERATE", "TIMESTAMP"],
        [[Cell.str "B", Cell.num 9, Cell.num 1, Cell.num 2, Cell.time 5]]⟩
      ⟨["SYM", "AVAILABLE", "FEERATE", "REBATERATE", "TIMESTAMP"],
        [[Cell.str "A", Cell.num 9, Cell.num 1, Cell.num 2, Cell.time 7]]⟩ 7
      (Cell.str "B") (by decide) (by decide)).2⟩

/-! ### Lemmas for the multi-run merge (claim C2) -/

theorem tupleOf_eq (df : DataFrame) (sym : Cell) (q : List Cell)
    (h : lastRowWithSym df sym = some q) :
    tupleOf df sym = CHANGE_COLS.map (rowGet df.cols q) := by
  simp only [tupleOf, h]

theorem trackedTimestamp_eq (df : DataFrame) (sym : Cell) (q : List Cell)
    (h : lastRowWithSym df sym = some q) :
    trackedTimestamp df sym = some (rowGet df.cols q "TIMESTAMP") := by
  simp only [trackedTimestamp, h, Option.map_some']

theorem map_eq_map_iff {α β : Type} (l : List α) (f g : α → β) :
    l.map f = l.map g ↔ ∀ a ∈ l, f a = g a := by
  induction l with
  | nil => simp
  | cons a as ih => simp [ih]

theorem getD_eq_get {α : Type} (l : List α) (d : α) (i : Nat) (h : i < l.length) :
    l.getD i d = l.get ⟨i, h⟩ := by
  induction l generalizing i with
  | nil => simp at h
  | cons a as ih =>
    cases i with
    | zero => rfl
    | succ n => exact ih n (Nat.lt_of_succ_lt_succ h)

/-- Effect of the `TIMESTAMP` stamping (`df["TIMESTAMP"] = bof_ts`) on the
tracked-record observers: rows keep their symbol and change columns, and
every row's `TIMESTAMP` becomes the stamp. -/
theorem stamp_spec (df : DataFrame) (ts : Nat) (sym : Cell) (hwf : Wellformed df) :
    Wellformed (assignConst df "TIMESTAMP" (Cell.time ts)) ∧
      (∀ x ∈ df.cols, x ∈ (assignConst df "TIMESTAMP" (Cell.time ts)).cols) ∧
      "TIMESTAMP" ∈ (assignConst df "TIMESTAMP" (Cell.time ts)).cols ∧
      ∃ g : List Cell → List Cell,
        lastRowWithSym (assignConst df "TIMESTAMP" (Cell.time ts)) sym =
          (lastRowWithSym df sym).map g ∧
        (∀ r ∈ df.rows, ∀ c, c ≠ "TIMESTAMP" →
          rowGet (assignConst df "TIMESTAMP" (Cell.time ts)).cols (g r) c =
            rowGet df.cols r c) ∧
        (∀ r ∈ df.rows,
          rowGet (assignConst df "TIMESTAMP" (Cell.time ts)).cols (g r) "TIMESTAMP" =
            Cell.time ts) := by
  obtain ⟨g, hrows, hne, hself, hlen⟩ :=
    assignCol_map_spec df "TIMESTAMP" (fun _ => Cell.time ts) hwf
  have hrows' : (assignConst df "TIMESTAMP" (Cell.time ts)).rows = df.rows.map g := hrows
  have hcols : (assignConst df "TIMESTAMP" (Cell.time ts)).cols =
      if "TIMESTAMP" ∈ df.cols then df.cols else df.cols ++ ["TIMESTAMP"] :=
    assignCol_cols df "TIMESTAMP" _
  have hcolsmem : ∀ x ∈ df.cols, x ∈ (assignConst df "TIMESTAMP" (Cell.time ts)).cols := by
    intro x hx
    rw [hcols]
    split
    · exact hx
    · exact List.mem_append_left _ hx
  have htsmem : "TIMESTAMP" ∈ (assignConst df "TIMESTAMP" (Cell.time ts)).cols := by
    rw [hcols]
    split
    · next h => exact h
    · exact List.mem_append_right _ (List.mem_singleton.mpr rfl)
  refine ⟨?_, hcolsmem, htsmem, g, ?_,
    fun r hr c hc => hne r hr c hc, fun r hr => hself r hr⟩
  · intro r hr
    rw [hrows'] at hr
    obtain ⟨r₀, hr₀, rfl⟩ := List.mem_map.mp hr
    exact hlen r₀ hr₀
  · have hmap := lastRowWithSym_map df.cols
      (assignConst df "TIMESTAMP" (Cell.time ts)).cols df.rows g sym
      (fun r hr => hne r hr SYMBOL_COL (by decide))
    have e1 : lastRowWithSym (assignConst df "TIMESTAMP" (Cell.time ts)) sym =
        lastRowWithSym ⟨(assignConst df "TIMESTAMP" (Cell.time ts)).cols,
          df.rows.map g⟩ sym := by
      rw [← hrows']
    rw [e1, hmap]

/-- Effect of the first run on the tracked record of a symbol present in
the snapshot: every invariant column is kept and the tracked timestamp is
the extraction time. -/
theorem process_first_tracked (df : DataFrame) (t : Nat) (sym : Cell)
    (hwf : Wellformed df) (hsymd : SYMBOL_COL ∈ df.cols)
    (hchgd : ∀ c ∈ CHANGE_COLS, c ∈ df.cols)
    (hq : lastRowWithSym df sym ≠ none) :
    Wellformed (processStep none df t) ∧
      SYMBOL_COL ∈ (processStep none df t).cols ∧
      (∀ c ∈ CHANGE_COLS, c ∈ (processStep none df t).cols) ∧
      "TIMESTAMP" ∈ (processStep none df t).cols ∧
      tupleOf (processStep none df t) sym = tupleOf df sym ∧
      lastRowWithSym (processStep none df t) sym ≠ none ∧
      trackedTimestamp (processStep none df t) sym = some (Cell.time t) := by
  obtain ⟨hwfst, hsup, hts, g, hlast, hne, hself⟩ := stamp_spec df t sym hwf
  have hct : ∀ c ∈ CHANGE_COLS, c ≠ "TIMESTAMP" := by decide
  have hwfst' : Wellformed (processStep none df t) := hwfst
  have hsup' : ∀ x ∈ df.cols, x ∈ (processStep none df t).cols := hsup
  have hts' : "TIMESTAMP" ∈ (processStep none df t).cols := hts
  have hlastP : lastRowWithSym (processStep none df t) sym =
      (lastRowWithSym df sym).map g := hlast
  have hneP : ∀ r ∈ df.rows, ∀ c, c ≠ "TIMESTAMP" →
      rowGet (processStep none df t).cols (g r) c = rowGet df.cols r c := hne
  have hselfP : ∀ r ∈ df.rows,
      rowGet (processStep none df t).cols (g r) "TIMESTAMP" = Cell.time t := hself
  obtain ⟨q, hqe⟩ := Option.ne_none_iff_exists'.mp hq
  have hqmem := (lastRowWithSym_spec df sym q hqe).1
  have hlast' : lastRowWithSym (processStep none df t) sym = some (g q) := by
    rw [hlastP, hqe, Option.map_some']
  refine ⟨hwfst', hsup' _ hsymd, fun c hc => hsup' _ (hchgd c hc), hts', ?_, ?_, ?_⟩
  · rw [tupleOf_eq _ _ _ hlast', tupleOf_eq _ _ _ hqe]
    exact List.map_congr_left fun c hc => hneP q hqmem c (hct c hc)
  · rw [hlast']
    exact fun h => Option.noConfusion h
  · rw [trackedTimestamp_eq _ _ _ hlast', hselfP q hqmem]

/-- Effect of one merge run on the tracked record of a symbol present in
both the history and the snapshot: the change tuple becomes the snapshot's
tuple, and the tracked timestamp advances to the extraction time exactly
when the tuple differs from the history's tuple, otherwise keeping the
previously tracked timestamp. -/
theorem merge_step_tracked (prev df : DataFrame) (t : Nat) (sym : Cell) (pt : Cell)
    (hwfd : Wellformed df)
    (hsymp : SYMBOL_COL ∈ prev.cols) (hsymd : SYMBOL_COL ∈ df.cols)
    (hchgp : ∀ c ∈ CHANGE_COLS, c ∈ prev.cols)
    (hchgd : ∀ c ∈ CHANGE_COLS, c ∈ df.cols)
    (htsp : "TIMESTAMP" ∈ prev.cols)
    (hp : trackedTimestamp prev sym = some pt)
    (hq : lastRowWithSym df sym ≠ none) :
    Wellformed (processStep (some prev) df t) ∧
      SYMBOL_COL ∈ (processStep (some prev) df t).cols ∧
      (∀ c ∈ CHANGE_COLS, c ∈ (processStep (some prev) df t).cols) ∧
      "TIMESTAMP" ∈ (processStep (some prev) df t).cols ∧
      tupleOf (processStep (some prev) df t) sym = tupleOf df sym ∧
      lastRowWithSym (processStep (some prev) df t) sym ≠ none ∧
      trackedTimestamp (processStep (some prev) df t) sym =
        some (if tupleOf df sym = tupleOf prev sym then pt else Cell.time t) := by
  have hct : ∀ c ∈ CHANGE_COLS, c ≠ "TIMESTAMP" := by decide
  obtain ⟨hwfst, hsup, htsst, g1, hlast1, hne1, hself1⟩ := stamp_spec df t sym hwfd
  have hsymst : SYMBOL_COL ∈ (assignConst df "TIMESTAMP" (Cell.time t)).cols :=
    hsup _ hsymd
  have hchgst : ∀ c ∈ CHANGE_COLS, c ∈ (assignConst df "TIMESTAMP" (Cell.time t)).cols :=
    fun c hc => hsup _ (hchgd c hc)
  obtain ⟨g2, hrows2, hne2, hself2, hlen2⟩ :=
    assignCol_map_spec (assignConst df "TIMESTAMP" (Cell.time t)) "TIMESTAMP"
      (mergedTimestamp prev CHANGE_COLS (assignConst df "TIMESTAMP" (Cell.time t)).cols t)
      hwfst
  have hout : processStep (some prev) df t =
      assignCol (assignConst df "TIMESTAMP" (Cell.time t)) "TIMESTAMP"
        ((assignConst df "TIMESTAMP" (Cell.time t)).rows.map
          (mergedTimestamp prev CHANGE_COLS
            (assignConst df "TIMESTAMP" (Cell.time t)).cols t)) :=
    merge_eq_assign_full prev (assignConst df "TIMESTAMP" (Cell.time t)) t
      hsymp hsymst (fun c hc => ⟨hchgp c hc, hchgst c hc⟩)
  have hocols : (processStep (some prev) df t).cols =
      (assignConst df "TIMESTAMP" (Cell.time t)).cols := by
    rw [hout, assignCol_cols, if_pos htsst]
  have horows : (processStep (some prev) df t).rows =
      (assignConst df "TIMESTAMP" (Cell.time t)).rows.map g2 := by
    rw [hout]
    exact hrows2
  obtain ⟨q, hqe⟩ := Option.ne_none_iff_exists'.mp hq
  obtain ⟨hqmem, hqsym⟩ := lastRowWithSym_spec df sym q hqe
  have hlastST : lastRowWithSym (assignConst df "TIMESTAMP" (Cell.time t)) sym =
      some (g1 q) := by
    rw [hlast1, hqe, Option.map_some']
  have hg1qmem : g1 q ∈ (assignConst df "TIMESTAMP" (Cell.time t)).rows :=
    (lastRowWithSym_spec _ sym (g1 q) hlastST).1
  have hlastOUT : lastRowWithSym (processStep (some prev) df t) sym =
      some (g2 (g1 q)) := by
    have hmap := lastRowWithSym_map (assignConst df "TIMESTAMP" (Cell.time t)).cols
      (processStep (some prev) df t).cols
      (assignConst df "TIMESTAMP" (Cell.time t)).rows g2 sym
      (fun r hr => by
        have h := hne2 r hr SYMBOL_COL (by decide)
        rw [← hout] at h
        exact h)
    have e1 : lastRowWithSym (processStep (some prev) df t) sym =
        lastRowWithSym ⟨(processStep (some prev) df t).cols,
          (assignConst df "TIMESTAMP" (Cell.time t)).rows.map g2⟩ sym := by
      rw [← horows]
    rw [e1, hmap, hlastST, Option.map_some']
  have hnenone : lastRowWithSym (processStep (some prev) df t) sym ≠ none := by
    rw [hlastOUT]
    exact fun h => Option.noConfusion h
  have hwfOUT : Wellformed (processStep (some prev) df t) := by
    intro r hr
    rw [horows] at hr
    obtain ⟨r₀, hr₀, rfl⟩ := List.mem_map.mp hr
    have := hlen2 r₀ hr₀
    rw [← hout] at this
    rw [this, hocols, ← hocols]
  have htupOUT : tupleOf (processStep (some prev) df t) sym = tupleOf df sym := by
    rw [tupleOf_eq _ _ _ hlastOUT, tupleOf_eq _ _ _ hqe]
    refine List.map_congr_left fun c hc => ?_
    have h2 := hne2 (g1 q) hg1qmem c (hct c hc)
    rw [← hout] at h2
    rw [hocols] at h2 ⊢
    rw [h2]
    exact hne1 q hqmem c (hct c hc)
  refine ⟨hwfOUT, by rw [hocols]; exact hsymst,
    fun c hc => by rw [hocols]; exact hchgst c hc,
    by rw [hocols]; exact htsst, htupOUT, hnenone, ?_⟩
  rw [trackedTimestamp_eq _ _ _ hlastOUT]
  have hselfOUT : rowGet (processStep (some prev) df t).cols (g2 (g1 q)) "TIMESTAMP" =
      mergedTimestamp prev CHANGE_COLS
        (assignConst df "TIMESTAMP" (Cell.time t)).cols t (g1 q) := by
    have h := hself2 (g1 q) hg1qmem
    rw [← hout] at h
    exact h
  rw [hselfOUT]
  have hsymcell : rowGet (assignConst df "TIMESTAMP" (Cell.time t)).cols (g1 q)
      SYMBOL_COL = sym := by
    rw [hne1 q hqmem SYMBOL_COL (by decide)]
    exact hqsym
  have hp' : (lastRowWithSym prev sym).map (fun r => rowGet prev.cols r "TIMESTAMP") =
      some pt := hp
  obtain ⟨p, hpe, hpt⟩ := Option.map_eq_some'.mp hp'
  have hF : mergedTimestamp prev CHANGE_COLS
      (assignConst df "TIMESTAMP" (Cell.time t)).cols t (g1 q) =
      (if tupleOf df sym = tupleOf prev sym then pt else Cell.time t) := by
    unfold mergedTimestamp
    rw [hsymcell, hpe]
    show (if (CHANGE_COLS.any fun c =>
        cellChanged (rowGet (assignConst df "TIMESTAMP" (Cell.time t)).cols (g1 q) c)
          (rowGet prev.cols p c)) = true then Cell.time t
      else if "TIMESTAMP" ∈ prev.cols then rowGet prev.cols p "TIMESTAMP"
      else Cell.time t) = _
    have hiff : (CHANGE_COLS.any fun c =>
        cellChanged (rowGet (assignConst df "TIMESTAMP" (Cell.time t)).cols (g1 q) c)
          (rowGet prev.cols p c)) = true ↔ ¬ (tupleOf df sym = tupleOf prev sym) := by
      rw [List.any_eq_true, tupleOf_eq df sym q hqe, tupleOf_eq prev sym p hpe]
      constructor
      · rintro ⟨c, hc, hcc⟩ heq
        have hpw := (map_eq_map_iff _ _ _).mp heq c hc
        have hfc : rowGet (assignConst df "TIMESTAMP" (Cell.time t)).cols (g1 q) c =
            rowGet df.cols q c := hne1 q hqmem c (hct c hc)
        rw [hfc, hpw] at hcc
        exact (cellChanged_eq_true_iff _ _).mp hcc rfl
      · intro hnem
        have hnall : ¬ ∀ c ∈ CHANGE_COLS, rowGet df.cols q c = rowGet prev.cols p c :=
          fun hall => hnem ((map_eq_map_iff _ _ _).mpr hall)
        push_neg at hnall
        obtain ⟨c, hc, hcc⟩ := hnall
        refine ⟨c, hc, ?_⟩
        rw [cellChanged_eq_true_iff, hne1 q hqmem c (hct c hc)]
        exact hcc
    by_cases hcase : tupleOf df sym = tupleOf prev sym
    · rw [if_pos hcase, if_neg (fun hcc => (hiff.mp hcc) hcase), if_pos htsp]
      exact hpt
    · rw [if_neg hcase, if_pos (hiff.mpr hcase)]
  rw [hF]

theorem getD_eq_getElem {α : Type} (l : List α) (d : α) (i : Nat)
    (h : i < l.length) : l.getD i d = l[i] := by
  induction l generalizing i with
  | nil => simp at h
  | cons a as ih =>
    cases i with
    | zero => rfl
    | succ n => exact ih n (Nat.lt_of_succ_lt_succ h)

/-! ### Claim C2 -/

/-- Claim C2: for a symbol present in every snapshot of a run of merges
with strictly increasing extraction timestamps, after the `k`-th merge the
symbol's tracked timestamp equals the extraction time of the earliest
snapshot at which the change-column tuple last differed from its
predecessor (its first appearance counting as index `0`), and the sequence
of these timestamps is non-decreasing. -/
theorem change_timestamp_monotonicity (snaps : List (DataFrame × Nat)) (sym : Cell)
    (hwf : ∀ s ∈ snaps, Wellformed s.1)
    (hsym : ∀ s ∈ snaps, SYMBOL_COL ∈ s.1.cols)
    (hchg : ∀ s ∈ snaps, ∀ c ∈ CHANGE_COLS, c ∈ s.1.cols)
    (hpres : ∀ s ∈ snaps, lastRowWithSym s.1 sym ≠ none)
    (hmono : List.Chain' (fun a b => a.2 < b.2) snaps) :
    (∀ k, k < snaps.length →
      ∃ df, processAll (snaps.take (k + 1)) = some df ∧
        trackedTimestamp df sym =
          some (Cell.time ((snaps.map fun s => s.2).getD
            (lastChangeIdx (snaps.map fun s => tupleOf s.1 sym) k) 0))) ∧
      ∀ k, k + 1 < snaps.length →
        (snaps.map fun s => s.2).getD
            (lastChangeIdx (snaps.map fun s => tupleOf s.1 sym) k) 0 ≤
          (snaps.map fun s => s.2).getD
            (lastChangeIdx (snaps.map fun s => tupleOf s.1 sym) (k + 1)) 0 := by
  have htimesmono : ∀ i j, i ≤ j → j < snaps.length →
      (snaps.map fun s => s.2).getD i 0 ≤ (snaps.map fun s => s.2).getD j 0 := by
    intro i j hij hj
    rcases Nat.lt_or_ge i j with hlt | hge
    · have hchain : List.Chain' (· < ·) (snaps.map fun s => s.2) :=
        (List.chain'_map _).mpr hmono
      have hpw : List.Pairwise (· < ·) (snaps.map fun s => s.2) :=
        List.chain'_iff_pairwise.mp hchain
      have hi : i < (snaps.map fun s => s.2).length := by
        rw [List.length_map]
        omega
      have hj' : j < (snaps.map fun s => s.2).length := by
        rw [List.length_map]
        omega
      have hlt' := (List.pairwise_iff_get.mp hpw) ⟨i, hi⟩ ⟨j, hj'⟩
        (Fin.mk_lt_mk.mpr hlt)
      rw [getD_eq_get _ 0 i hi, getD_eq_get _ 0 j hj']
      exact le_of_lt hlt'
    · have heq : i = j := le_antisymm hij hge
      rw [heq]
  have hlci : ∀ k, lastChangeIdx (snaps.map fun s => tupleOf s.1 sym) (k + 1) =
      if (0 < k + 1 ∧ (snaps.map fun s => tupleOf s.1 sym).getD (k + 1) [] ≠
          (snaps.map fun s => tupleOf s.1 sym).getD (k + 1 - 1) []) then k + 1
      else lastChangeIdx (snaps.map fun s => tupleOf s.1 sym) k :=
    fun k => Nat.findGreatest_succ k
  have htakestep : ∀ k, k + 1 < snaps.length →
      processAll (snaps.take (k + 2)) =
        some (processStep (processAll (snaps.take (k + 1)))
          (snaps.getD (k + 1) ((⟨[], []⟩ : DataFrame), 0)).1
          (snaps.getD (k + 1) ((⟨[], []⟩ : DataFrame), 0)).2) := by
    intro k hk1
    have htake : snaps.take (k + 2) =
        snaps.take (k + 1) ++ [snaps.getD (k + 1) ((⟨[], []⟩ : DataFrame), 0)] := by
      rw [List.take_succ, List.getElem?_eq_getElem hk1,
        getD_eq_getElem snaps _ (k + 1) hk1]
      rfl
    rw [htake]
    unfold processAll
    rw [List.foldl_append]
    rfl
  have hmain : ∀ k, k < snaps.length →
      ∃ df, processAll (snaps.take (k + 1)) = some df ∧
        Wellformed df ∧ SYMBOL_COL ∈ df.cols ∧
        (∀ c ∈ CHANGE_COLS, c ∈ df.cols) ∧ "TIMESTAMP" ∈ df.cols ∧
        tupleOf df sym = (snaps.map fun s => tupleOf s.1 sym).getD k [] ∧
        lastRowWithSym df sym ≠ none ∧
        trackedTimestamp df sym =
          some (Cell.time ((snaps.map fun s => s.2).getD
            (lastChangeIdx (snaps.map fun s => tupleOf s.1 sym) k) 0)) := by
    intro k
    induction k with
    | zero =>
      intro h0
      have hs0mem : snaps.getD 0 ((⟨[], []⟩ : DataFrame), 0) ∈ snaps :=
        getD_mem_of_lt _ _ _ h0
      have htake1 : processAll (snaps.take 1) =
          some (processStep none (snaps.getD 0 ((⟨[], []⟩ : DataFrame), 0)).1
            (snaps.getD 0 ((⟨[], []⟩ : DataFrame), 0)).2) := by
        have htake : snaps.take 1 = [snaps.getD 0 ((⟨[], []⟩ : DataFrame), 0)] := by
          rw [List.take_succ, List.take_zero, List.getElem?_eq_getElem h0,
            getD_eq_getElem snaps _ 0 h0]
          rfl
        rw [htake]
        rfl
      have hp0 := process_first_tracked (snaps.getD 0 ((⟨[], []⟩ : DataFrame), 0)).1
        (snaps.getD 0 ((⟨[], []⟩ : DataFrame), 0)).2 sym
        (hwf _ hs0mem) (hsym _ hs0mem) (hchg _ hs0mem) (hpres _ hs0mem)
      refine ⟨_, htake1, hp0.1, hp0.2.1, hp0.2.2.1, hp0.2.2.2.1, ?_, hp0.2.2.2.2.2.1, ?_⟩
      · rw [hp0.2.2.2.2.1,
          getD_map_of_lt (fun s => tupleOf s.1 sym) snaps 0 h0
            ((⟨[], []⟩ : DataFrame), 0) []]
      · rw [hp0.2.2.2.2.2.2]
        have h00 : lastChangeIdx (snaps.map fun s => tupleOf s.1 sym) 0 = 0 :=
          Nat.findGreatest_zero
        rw [h00, getD_map_of_lt (fun s => s.2) snaps 0 h0 ((⟨[], []⟩ : DataFrame), 0) 0]
    | succ k ih =>
      intro hk1
      have hk : k < snaps.length := Nat.lt_of_succ_lt hk1
      obtain ⟨dfk, hrun, hwfk, hsymk, hchgk, htsk, htupk, hlastk, htrk⟩ := ih hk
      have hsmem : snaps.getD (k + 1) ((⟨[], []⟩ : DataFrame), 0) ∈ snaps :=
        getD_mem_of_lt _ _ _ hk1
      have hstep := merge_step_tracked dfk
        (snaps.getD (k + 1) ((⟨[], []⟩ : DataFrame), 0)).1
        (snaps.getD (k + 1) ((⟨[], []⟩ : DataFrame), 0)).2 sym
        (Cell.time ((snaps.map fun s => s.2).getD
          (lastChangeIdx (snaps.map fun s => tupleOf s.1 sym) k) 0))
        (hwf _ hsmem) hsymk (hsym _ hsmem) hchgk (hchg _ hsmem) htsk htrk
        (hpres _ hsmem)
      have htup1 : (snaps.map fun s => tupleOf s.1 sym).getD (k + 1) [] =
          tupleOf (snaps.getD (k + 1) ((⟨[], []⟩ : DataFrame), 0)).1 sym :=
        getD_map_of_lt (fun s => tupleOf s.1 sym) snaps (k + 1) hk1
          ((⟨[], []⟩ : DataFrame), 0) []
      refine ⟨_, ?_, hstep.1, hstep.2.1, hstep.2.2.1, hstep.2.2.2.1, ?_,
        hstep.2.2.2.2.2.1, ?_⟩
      · rw [htakestep k hk1, hrun]
      · rw [hstep.2.2.2.2.1, htup1]
      · rw [hstep.2.2.2.2.2.2, htupk]
        by_cases hcase : tupleOf (snaps.getD (k + 1) ((⟨[], []⟩ : DataFrame), 0)).1 sym =
            (snaps.map fun s => tupleOf s.1 sym).getD k []
        · rw [if_pos hcase]
          have hPfalse : ¬ (0 < k + 1 ∧
              (snaps.map fun s => tupleOf s.1 sym).getD (k + 1) [] ≠
                (snaps.map fun s => tupleOf s.1 sym).getD (k + 1 - 1) []) := by
            rintro ⟨-, hne⟩
            refine hne ?_
            simp only [Nat.add_sub_cancel]
            rw [htup1, hcase]
          rw [hlci k, if_neg hPfalse]
        · rw [if_neg hcase]
          have hPtrue : (0 < k + 1 ∧
              (snaps.map fun s => tupleOf s.1 sym).getD (k + 1) [] ≠
                (snaps.map fun s => tupleOf s.1 sym).getD (k + 1 - 1) []) := by
            refine ⟨Nat.succ_pos k, ?_⟩
            simp only [Nat.add_sub_cancel]
            rw [htup1]
            exact hcase
          rw [hlci k, if_pos hPtrue,
            getD_map_of_lt (fun s => s.2) snaps (k + 1) hk1 ((⟨[], []⟩ : DataFrame), 0) 0]
  constructor
  · intro k hk
    obtain ⟨df, h1, _, _, _, _, _, _, h8⟩ := hmain k hk
    exact ⟨df, h1, h8⟩
  · intro k hk1
    have hub : lastChangeIdx (snaps.map fun s => tupleOf s.1 sym) (k + 1) ≤ k + 1 :=
      Nat.findGreatest_le _
    have hub0 : lastChangeIdx (snaps.map fun s => tupleOf s.1 sym) k ≤ k :=
      Nat.findGreatest_le _
    have hstep : lastChangeIdx (snaps.map fun s => tupleOf s.1 sym) k ≤
        lastChangeIdx (snaps.map fun s => tupleOf s.1 sym) (k + 1) := by
      rw [hlci k]
      split
      · omega
      · exact le_refl _
    exact htimesmono _ _ hstep (lt_of_le_of_lt hub hk1)

/-- Witness for the C2 theorem at the spec's scenario: identical snapshots
at times 10 and 11, then a fee-rate change at time 12; after the third
merge the tracked timestamp is the time of the last change. -/
theorem change_timestamp_monotonicity_witness :
    List.Chain' (fun a b => a.2 < b.2)
        ([(⟨["SYM", "AVAILABLE", "FEERATE", "REBATERATE"],
            [[Cell.str "AAPL", Cell.num 1000, Cell.num 1, Cell.null]]⟩, 10),
          (⟨["SYM", "AVAILABLE", "FEERATE", "REBATERATE"],
            [[Cell.str "AAPL", Cell.num 1000, Cell.num 1, Cell.null]]⟩, 11),
          (⟨["SYM", "AVAILABLE", "FEERATE", "REBATERATE"],
            [[Cell.str "AAPL", Cell.num 1000, Cell.num 2, Cell.null]]⟩, 12)] :
          List (DataFrame × Nat)) ∧
      (∀ s ∈ ([(⟨["SYM", "AVAILABLE", "FEERATE", "REBATERATE"],
            [[Cell.str "AAPL", Cell.num 1000, Cell.num 1, Cell.null]]⟩, 10),
          (⟨["SYM", "AVAILABLE", "FEERATE", "REBATERATE"],
            [[Cell.str "AAPL", Cell.num 1000, Cell.num 1, Cell.null]]⟩, 11),
          (⟨["SYM", "AVAILABLE", "FEERATE", "REBATERATE"],
            [[Cell.str "AAPL", Cell.num 1000, Cell.num 2, Cell.null]]⟩, 12)] :
          List (DataFrame × Nat)), lastRowWithSym s.1 (Cell.str "AAPL") ≠ none) ∧
      ∃ df, processAll
          (([(⟨["SYM", "AVAILABLE", "FEERATE", "REBATERATE"],
              [[Cell.str "AAPL", Cell.num 1000, Cell.num 1, Cell.null]]⟩, 10),
            (⟨["SYM", "AVAILABLE", "FEERATE", "REBATERATE"],
              [[Cell.str "AAPL", Cell.num 1000, Cell.num 1, Cell.null]]⟩, 11),
            (⟨["SYM", "AVAILABLE", "FEERATE", "REBATERATE"],
              [[Cell.str "AAPL", Cell.num 1000, Cell.num 2, Cell.null]]⟩, 12)] :
            List (DataFrame × Nat)).take 3) = some df ∧
        trackedTimestamp df (Cell.str "AAPL") =
          some (Cell.time
            ((([(⟨["SYM", "AVAILABLE", "FEERATE", "REBATERATE"],
                [[Cell.str "AAPL", Cell.num 1000, Cell.num 1, Cell.null]]⟩, 10),
              (⟨["SYM", "AVAILABLE", "FEERATE", "REBATERATE"],
                [[Cell.str "AAPL", Cell.num 1000, Cell.num 1, Cell.null]]⟩, 11),
              (⟨["SYM", "AVAILABLE", "FEERATE", "REBATERATE"],
                [[Cell.str "AAPL", Cell.num 1000, Cell.num 2, Cell.null]]⟩, 12)] :
              List (DataFrame × Nat)).map fun s => s.2).getD
              (lastChangeIdx
                (([(⟨["SYM", "AVAILABLE", "FEERATE", "REBATERATE"],
                    [[Cell.str "AAPL", Cell.num 1000, Cell.num 1, Cell.null]]⟩, 10),
                  (⟨["SYM", "AVAILABLE", "FEERATE", "REBATERATE"],
                    [[Cell.str "AAPL", Cell.num 1000, Cell.num 1, Cell.null]]⟩, 11),
                  (⟨["SYM", "AVAILABLE", "FEERATE", "REBATERATE"],
                    [[Cell.str "AAPL", Cell.num 1000, Cell.num 2, Cell.null]]⟩, 12)] :
                  List (DataFrame × Nat)).map fun s => tupleOf s.1 (Cell.str "AAPL")) 2)
              0)) :=
  ⟨by simp [List.chain'_cons], by decide,
    (change_timestamp_monotonicity
      [(⟨["SYM", "AVAILABLE", "FEERATE", "REBATERATE"],
          [[Cell.str "AAPL", Cell.num 1000, Cell.num 1, Cell.null]]⟩, 10),
        (⟨["SYM", "AVAILABLE", "FEERATE", "REBATERATE"],
          [[Cell.str "AAPL", Cell.num 1000, Cell.num 1, Cell.null]]⟩, 11),
        (⟨["SYM", "AVAILABLE", "FEERATE", "REBATERATE"],
          [[Cell.str "AAPL", Cell.num 1000, Cell.num 2, Cell.null]]⟩, 12)]
      (Cell.str "AAPL") (by decide) (by decide) (by decide) (by decide)
      (by simp [List.chain'_cons])).1 2 (by decide)⟩

/-! ### Claim C1 -/

/-- Claim C1: in the merged output, a record of the new snapshot is stamped
with the new extraction timestamp `T` when its symbol is absent from the
previous history or at least one of the change columns `AVAILABLE`,
`FEERATE`, `REBATERATE` differs from the previous record for that symbol
under null-aware equality; otherwise it inherits the previous record's
timestamp unchanged.  (The previous record for a symbol is the last row of
the history carrying it.) -/
theorem merge_change_tracking_rule (prev newDf : DataFrame) (T : Nat)
    (hwfn : Wellformed newDf)
    (hsymp : SYMBOL_COL ∈ prev.cols) (hsymn : SYMBOL_COL ∈ newDf.cols)
    (hchg : ∀ c ∈ CHANGE_COLS, c ∈ prev.cols ∧ c ∈ newDf.cols)
    (hts : "TIMESTAMP" ∈ prev.cols) :
    ∀ i < newDf.rows.length,
      ((lastRowWithSym prev (colValue newDf i SYMBOL_COL) = none ∨
          ∃ p, lastRowWithSym prev (colValue newDf i SYMBOL_COL) = some p ∧
            ∃ c ∈ CHANGE_COLS, NullAwareDiff (colValue newDf i c) (rowGet prev.cols p c)) →
        colValue (mergeWithTimestampTracking prev newDf T) i "TIMESTAMP" = Cell.time T) ∧
      (∀ p, lastRowWithSym prev (colValue newDf i SYMBOL_COL) = some p →
        (∀ c ∈ CHANGE_COLS, ¬ NullAwareDiff (colValue newDf i c) (rowGet prev.cols p c)) →
        colValue (mergeWithTimestampTracking prev newDf T) i "TIMESTAMP" =
          rowGet prev.cols p "TIMESTAMP") := by
  intro i hi
  have hmts : colValue (mergeWithTimestampTracking prev newDf T) i "TIMESTAMP" =
      mergedTimestamp prev CHANGE_COLS newDf.cols T (newDf.rows.getD i []) := by
    rw [merge_eq_assign_full prev newDf T hsymp hsymn hchg]
    obtain ⟨g, hrows, hne, hself, hlen⟩ :=
      assignCol_map_spec newDf "TIMESTAMP"
        (mergedTimestamp prev CHANGE_COLS newDf.cols T) hwfn
    unfold colValue
    rw [hrows, getD_map_of_lt g newDf.rows i hi [] []]
    exact hself _ (getD_mem_of_lt newDf.rows i [] hi)
  have hcv : ∀ c, colValue newDf i c = rowGet newDf.cols (newDf.rows.getD i []) c :=
    fun c => rfl
  constructor
  · intro hcond
    rw [hmts]
    unfold mergedTimestamp
    cases hlast : lastRowWithSym prev
        (rowGet newDf.cols (newDf.rows.getD i []) SYMBOL_COL) with
    | none => rfl
    | some q =>
      rcases hcond with hnone | ⟨p', hp', c, hc, hdiff⟩
      · rw [hcv SYMBOL_COL] at hnone
        rw [hnone] at hlast
        cases hlast
      · rw [hcv SYMBOL_COL] at hp'
        rw [hp'] at hlast
        injection hlast with hpq
        have hdiff2 : NullAwareDiff (rowGet newDf.cols (newDf.rows.getD i []) c)
            (rowGet prev.cols q c) := by
          rw [← hpq, ← hcv c]
          exact hdiff
        have hany : (CHANGE_COLS.any fun c =>
            cellChanged (rowGet newDf.cols (newDf.rows.getD i []) c)
              (rowGet prev.cols q c)) = true :=
          List.any_eq_true.mpr ⟨c, hc, (nullAwareDiff_iff_cellChanged _ _).mp hdiff2⟩
        show (if (CHANGE_COLS.any fun c =>
            cellChanged (rowGet newDf.cols (newDf.rows.getD i []) c)
              (rowGet prev.cols q c)) = true then Cell.time T
          else if "TIMESTAMP" ∈ prev.cols then rowGet prev.cols q "TIMESTAMP"
          else Cell.time T) = Cell.time T
        rw [if_pos hany]
  · intro p hp hsame
    rw [hmts]
    unfold mergedTimestamp
    rw [hcv SYMBOL_COL] at hp
    cases hlast : lastRowWithSym prev
        (rowGet newDf.cols (newDf.rows.getD i []) SYMBOL_COL) with
    | none =>
      rw [hlast] at hp
      cases hp
    | some q =>
      rw [hlast] at hp
      injection hp with hqp
      rw [hqp]
      have hany : ¬ ((CHANGE_COLS.any fun c =>
          cellChanged (rowGet newDf.cols (newDf.rows.getD i []) c)
            (rowGet prev.cols p c)) = true) := by
        intro hcany
        obtain ⟨c, hcmem, hcc⟩ := List.any_eq_true.mp hcany
        refine hsame c hcmem ?_
        rw [hcv c]
        exact (nullAwareDiff_iff_cellChanged _ _).mpr hcc
      show (if (CHANGE_COLS.any fun c =>
          cellChanged (rowGet newDf.cols (newDf.rows.getD i []) c)
            (rowGet prev.cols p c)) = true then Cell.time T
        else if "TIMESTAMP" ∈ prev.cols then rowGet prev.cols p "TIMESTAMP"
        else Cell.time T) = rowGet prev.cols p "TIMESTAMP"
      rw [if_neg hany, if_pos hts]

/-- Witness for the C1 theorem at a concrete merge in which the change
tuple is unchanged (including a null-against-null comparison), so the old
timestamp is inherited. -/
theorem merge_change_tracking_rule_witness :
    Wellformed (⟨["SYM", "AVAILABLE", "FEERATE", "REBATERATE", "TIMESTAMP"],
        [[Cell.str "A", Cell.num 1, Cell.null, Cell.num 2, Cell.time 7]]⟩ : DataFrame) ∧
      (∀ c ∈ CHANGE_COLS,
        c ∈ ["SYM", "AVAILABLE", "FEERATE", "REBATERATE", "TIMESTAMP"] ∧
          c ∈ ["SYM", "AVAILABLE", "FEERATE", "REBATERATE", "TIMESTAMP"]) ∧
      ∀ i < 1,
        ((lastRowWithSym
              ⟨["SYM", "AVAILABLE", "FEERATE", "REBATERATE", "TIMESTAMP"],
                [[Cell.str "A", Cell.num 1, Cell.null, Cell.num 2, Cell.time 5]]⟩
              (colValue
                ⟨["SYM", "AVAILABLE", "FEERATE", "REBATERATE", "TIMESTAMP"],
                  [[Cell.str "A", Cell.num 1, Cell.null, Cell.num 2, Cell.time 7]]⟩
                i SYMBOL_COL) = none ∨
            ∃ p, lastRowWithSym
                ⟨["SYM", "AVAILABLE", "FEERATE", "REBATERATE", "TIMESTAMP"],
                  [[Cell.str "A", Cell.num 1, Cell.null, Cell.num 2, Cell.time 5]]⟩
                (colValue
                  ⟨["SYM", "AVAILABLE", "FEERATE", "REBATERATE", "TIMESTAMP"],
                    [[Cell.str "A", Cell.num 1, Cell.null, Cell.num 2, Cell.time 7]]⟩
                  i SYMBOL_COL) = some p ∧
              ∃ c ∈ CHANGE_COLS, NullAwareDiff
                (colValue
                  ⟨["SYM", "AVAILABLE", "FEERATE", "REBATERATE", "TIMESTAMP"],
                    [[Cell.str "A", Cell.num 1, Cell.null, Cell.num 2, Cell.time 7]]⟩ i c)
                (rowGet ["SYM", "AVAILABLE", "FEERATE", "REBATERATE", "TIMESTAMP"] p c)) →
          colValue (mergeWithTimestampTracking
              ⟨["SYM", "AVAILABLE", "FEERATE", "REBATERATE", "TIMESTAMP"],
                [[Cell.str "A", Cell.num 1, Cell.null, Cell.num 2, Cell.time 5]]⟩
              ⟨["SYM", "AVAILABLE", "FEERATE", "REBATERATE", "TIMESTAMP"],
                [[Cell.str "A", Cell.num 1, Cell.null, Cell.num 2, Cell.time 7]]⟩ 7)
            i "TIMESTAMP" = Cell.time 7) ∧
        (∀ p, lastRowWithSym
              ⟨["SYM", "AVAILABLE", "FEERATE", "REBATERATE", "TIMESTAMP"],
                [[Cell.str "A", Cell.num 1, Cell.null, Cell.num 2, Cell.time 5]]⟩
              (colValue
                ⟨["SYM", "AVAILABLE", "FEERATE", "REBATERATE", "TIMESTAMP"],
                  [[Cell.str "A", Cell.num 1, Cell.null, Cell.num 2, Cell.time 7]]⟩
                i SYMBOL_COL) = some p →
          (∀ c ∈ CHANGE_COLS, ¬ NullAwareDiff
              (colValue
                ⟨["SYM", "AVAILABLE", "FEERATE", "REBATERATE", "TIMESTAMP"],
                  [[Cell.str "A", Cell.num 1, Cell.null, Cell.num 2, Cell.time 7]]⟩ i c)
              (rowGet ["SYM", "AVAILABLE", "FEERATE", "REBATERATE", "TIMESTAMP"] p c)) →
          colValue (mergeWithTimestampTracking
              ⟨["SYM", "AVAILABLE", "FEERATE", "REBATERATE", "TIMESTAMP"],
                [[Cell.str "A", Cell.num 1, Cell.null, Cell.num 2, Cell.time 5]]⟩
              ⟨["SYM", "AVAILABLE", "FEERATE", "REBATERATE", "TIMESTAMP"],
                [[Cell.str "A", Cell.num 1, Cell.null, Cell.num 2, Cell.time 7]]⟩ 7)
            i "TIMESTAMP" =
            rowGet ["SYM", "AVAILABLE", "FEERATE", "REBATERATE", "TIMESTAMP"]
              p "TIMESTAMP") :=
  ⟨by decide, by decide,
    merge_change_tracking_rule
      ⟨["SYM", "AVAILABLE", "FEERATE", "REBATERATE", "TIMESTAMP"],
        [[Cell.str "A", Cell.num 1, Cell.null, Cell.num 2, Cell.time 5]]⟩
      ⟨["SYM", "AVAILABLE", "FEERATE", "REBATERATE", "TIMESTAMP"],
        [[Cell.str "A", Cell.num 1, Cell.null, Cell.num 2, Cell.time 7]]⟩ 7
      (by decide) (by decide) (by decide) (by decide) (by decide)⟩

/-! ### Lemmas about the parser's cell transformations -/

theorem dataRowOfLine_length (n : Nat) (line : String) :
    (dataRowOfLine n line).length = n := by
  unfold dataRowOfLine padTruncate
  simp only [List.length_map, List.length_take, List.length_append,
    List.length_replicate]
  omega

theorem mem_rowSet (cols : List String) (row : List Cell) (c : String) (v y : Cell)
    (h : y ∈ rowSet cols row c v) : y = v ∨ y ∈ row := by
  induction cols generalizing row with
  | nil => exact Or.inr h
  | cons c₀ cs ih =>
    cases row with
    | nil => cases h
    | cons v₀ vs =>
      by_cases hc : c₀ = c
      · simp only [rowSet, if_pos hc] at h
        rcases List.mem_cons.mp h with h | h
        · exact Or.inl h
        · exact Or.inr (List.mem_cons_of_mem _ h)
      · simp only [rowSet, if_neg hc] at h
        rcases List.mem_cons.mp h with h | h
        · exact Or.inr (h ▸ List.mem_cons_self v₀ vs)
        · rcases ih vs h with h | h
          · exact Or.inl h
          · exact Or.inr (List.mem_cons_of_mem _ h)

theorem rowGet_mem_or_null (cols : List String) (row : List Cell) (c : String) :
    rowGet cols row c = Cell.null ∨ rowGet cols row c ∈ row := by
  induction cols generalizing row with
  | nil => exact Or.inl rfl
  | cons c₀ cs ih =>
    cases row with
    | nil => exact Or.inl rfl
    | cons v₀ vs =>
      by_cases hc : c₀ = c
      · simp only [rowGet, if_pos hc]
        exact Or.inr (List.mem_cons_self v₀ vs)
      · simp only [rowGet, if_neg hc]
        rcases ih vs with h | h
        · exact Or.inl h
        · exact Or.inr (List.mem_cons_of_mem _ h)

theorem rowGet_map (f : Cell → Cell) (hf : f Cell.null = Cell.null)
    (cols : List String) (row : List Cell) (c : String) :
    rowGet cols (row.map f) c = f (rowGet cols row c) := by
  induction cols generalizing row with
  | nil => exact hf.symm
  | cons c₀ cs ih =>
    cases row with
    | nil => exact hf.symm
    | cons v₀ vs =>
      by_cases hc : c₀ = c
      · simp [rowGet, hc]
      · simp only [List.map_cons, rowGet, if_neg hc]
        exact ih vs

theorem cellReplaceNA_no_placeholder (x : Cell) :
    cellReplaceNA x ≠ Cell.str "NA" ∧ cellReplaceNA x ≠ Cell.str "" := by
  cases x with
  | str s =>
    by_cases h : s = "NA" ∨ s = ""
    · simp [cellReplaceNA, h]
    · push_neg at h
      simp only [cellReplaceNA, if_neg (by tauto : ¬ (s = "NA" ∨ s = ""))]
      exact ⟨by simp [h.1], by simp [h.2]⟩
  | null => simp [cellReplaceNA]
  | num q => simp [cellReplaceNA]
  | time t => simp [cellReplaceNA]

theorem cellToNumeric_no_placeholder (toNum : String → Option Rat) (x : Cell) :
    cellToNumeric toNum x ≠ Cell.str "NA" ∧ cellToNumeric toNum x ≠ Cell.str "" := by
  cases x with
  | str s =>
    unfold cellToNumeric
    cases h : toNum s <;> simp [h]
  | null => simp [cellToNumeric]
  | num q => simp [cellToNumeric]
  | time t => simp [cellToNumeric]

theorem mapCol_cols (df : DataFrame) (c : String) (f : Cell → Cell) :
    (mapCol df c f).cols = df.cols := by
  unfold mapCol
  split <;> rfl

/-- Structural description of `mapCol`: a per-row image whose new cells are
either `f`-images or old cells, leaving other columns and row lengths
unchanged. -/
theorem mapCol_rows_spec (df : DataFrame) (c : String) (f : Cell → Cell) :
    ∃ g : List Cell → List Cell,
      (mapCol df c f).rows = df.rows.map g ∧
      (∀ r y, y ∈ g r → (∃ x, y = f x) ∨ y ∈ r) ∧
      (∀ r c', c' ≠ c → rowGet df.cols (g r) c' = rowGet df.cols r c') ∧
      (∀ r, (g r).length = r.length) ∧
      (∀ r, df.cols.length ≤ r.length → c ∈ df.cols →
        rowGet df.cols (g r) c = f (rowGet df.cols r c)) := by
  unfold mapCol
  by_cases hmem : c ∈ df.cols
  · rw [if_pos hmem]
    refine ⟨fun r => rowSet df.cols r c (f (rowGet df.cols r c)), rfl, ?_, ?_, ?_, ?_⟩
    · intro r y hy
      rcases mem_rowSet df.cols r c _ y hy with h | h
      · exact Or.inl ⟨rowGet df.cols r c, h⟩
      · exact Or.inr h
    · intro r c' hc'
      exact rowGet_rowSet_ne df.cols r _ hc'
    · intro r
      exact rowSet_length df.cols r c _
    · intro r hlen _
      exact rowGet_rowSet_self df.cols r _ hmem hlen
  · rw [if_neg hmem]
    exact ⟨id, (List.map_id _).symm, fun r y hy => Or.inr hy,
      fun r c' _ => rfl, fun r => rfl, fun r _ hc => absurd hc hmem⟩

/-- Structural description of the numeric-coercion fold over the change
columns. -/
theorem foldl_mapCol_spec (f : Cell → Cell) (cs : List String) (d : DataFrame) :
    (cs.foldl (fun d c => mapCol d c f) d).cols = d.cols ∧
      ∃ g : List Cell → List Cell,
        (cs.foldl (fun d c => mapCol d c f) d).rows = d.rows.map g ∧
        (∀ r y, y ∈ g r → (∃ x, y = f x) ∨ y ∈ r) ∧
        (∀ r c', c' ∉ cs → rowGet d.cols (g r) c' = rowGet d.cols r c') ∧
        (∀ r, (g r).length = r.length) := by
  induction cs generalizing d with
  | nil =>
    exact ⟨rfl, id, (List.map_id _).symm, fun r y hy => Or.inr hy,
      fun r c' _ => rfl, fun r => rfl⟩
  | cons c cs ih =>
    obtain ⟨g₁, hrows₁, hmem₁, hne₁, hlen₁, hself₁⟩ := mapCol_rows_spec d c f
    obtain ⟨hcols₂, g₂, hrows₂, hmem₂, hne₂, hlen₂⟩ := ih (mapCol d c f)
    have hcols₁ := mapCol_cols d c f
    refine ⟨by rw [List.foldl_cons, hcols₂, hcols₁], g₂ ∘ g₁, ?_, ?_, ?_, ?_⟩
    · rw [List.foldl_cons, hrows₂, hrows₁, List.map_map]
    · intro r y hy
      rcases hmem₂ (g₁ r) y hy with h | h
      · exact Or.inl h
      · exact hmem₁ r y h
    · intro r c' hc'
      have hc'c : c' ≠ c := fun hh => hc' (hh ▸ List.mem_cons_self c cs)
      have hc'cs : c' ∉ cs := fun hh => hc' (List.mem_cons_of_mem _ hh)
      have h2 := hne₂ (g₁ r) c' hc'cs
      rw [hcols₁] at h2
      rw [Function.comp_apply, h2]
      exact hne₁ r c' hc'c
    · intro r
      rw [Function.comp_apply, hlen₂, hlen₁]

/-- Behaviour of the parse pipeline after the symbol filter: the `replace`
step nulls every `"NA"`/`""` cell in every column, the numeric coercion
only produces numbers or nulls, and the `COUNTRY` assignment touches no
other column.  `colsd`/`rowsd` are the columns and rows entering the
replace step. -/
theorem parse_tail_spec (toNum : String → Option Rat) (colsd : List String)
    (rowsd : List (List Cell)) (country : Cell) (final : DataFrame)
    (hwfd : ∀ r ∈ rowsd, r.length = colsd.length)
    (hfin : final = assignConst
      (CHANGE_COLS.foldl (fun d c => mapCol d c (cellToNumeric toNum))
        ⟨colsd, rowsd.map fun r => r.map cellReplaceNA⟩) "COUNTRY" country) :
    (∀ r ∈ final.rows, ∀ c, c ≠ "COUNTRY" →
        rowGet final.cols r c ≠ Cell.str "NA" ∧ rowGet final.cols r c ≠ Cell.str "") ∧
      ∀ r₁ ∈ rowsd, rowGet colsd r₁ SYMBOL_COL = Cell.str "NA" →
        ∃ r ∈ final.rows, rowGet final.cols r SYMBOL_COL = Cell.null := by
  subst hfin
  obtain ⟨hcols3, g3, hrows3, hmem3, hne3, hlen3⟩ :=
    foldl_mapCol_spec (cellToNumeric toNum) CHANGE_COLS
      ⟨colsd, rowsd.map fun r => r.map cellReplaceNA⟩
  have hcols3' : (CHANGE_COLS.foldl (fun d c => mapCol d c (cellToNumeric toNum))
      ⟨colsd, rowsd.map fun r => r.map cellReplaceNA⟩).cols = colsd := hcols3
  have hrows3' : (CHANGE_COLS.foldl (fun d c => mapCol d c (cellToNumeric toNum))
      ⟨colsd, rowsd.map fun r => r.map cellReplaceNA⟩).rows =
      (rowsd.map fun r => r.map cellReplaceNA).map g3 := hrows3
  have hne3' : ∀ r c', c' ∉ CHANGE_COLS →
      rowGet colsd (g3 r) c' = rowGet colsd r c' := hne3
  have hwf3 : Wellformed (CHANGE_COLS.foldl (fun d c => mapCol d c (cellToNumeric toNum))
      ⟨colsd, rowsd.map fun r => r.map cellReplaceNA⟩) := by
    intro r hr
    rw [hrows3'] at hr
    obtain ⟨r₂, hr₂, rfl⟩ := List.mem_map.mp hr
    obtain ⟨r₁, hr₁, rfl⟩ := List.mem_map.mp hr₂
    rw [hlen3, List.length_map, hcols3']
    exact hwfd r₁ hr₁
  have hcell3 : ∀ r ∈ (CHANGE_COLS.foldl (fun d c => mapCol d c (cellToNumeric toNum))
      ⟨colsd, rowsd.map fun r => r.map cellReplaceNA⟩).rows,
      ∀ y ∈ r, y ≠ Cell.str "NA" ∧ y ≠ Cell.str "" := by
    intro r hr y hy
    rw [hrows3'] at hr
    obtain ⟨r₂, hr₂, rfl⟩ := List.mem_map.mp hr
    rcases hmem3 r₂ y hy with ⟨x, rfl⟩ | hy₂
    · exact cellToNumeric_no_placeholder toNum x
    · obtain ⟨r₁, hr₁, rfl⟩ := List.mem_map.mp hr₂
      obtain ⟨x, hx, rfl⟩ := List.mem_map.mp hy₂
      exact cellReplaceNA_no_placeholder x
  obtain ⟨g4, hrows4, hne4, hself4, hlen4⟩ :=
    assignCol_map_spec
      (CHANGE_COLS.foldl (fun d c => mapCol d c (cellToNumeric toNum))
        ⟨colsd, rowsd.map fun r => r.map cellReplaceNA⟩)
      "COUNTRY" (fun _ => country) hwf3
  have hrows4' : (assignConst
      (CHANGE_COLS.foldl (fun d c => mapCol d c (cellToNumeric toNum))
        ⟨colsd, rowsd.map fun r => r.map cellReplaceNA⟩) "COUNTRY" country).rows =
      (CHANGE_COLS.foldl (fun d c => mapCol d c (cellToNumeric toNum))
        ⟨colsd, rowsd.map fun r => r.map cellReplaceNA⟩).rows.map g4 := hrows4
  constructor
  · intro r hr c hc
    rw [hrows4'] at hr
    obtain ⟨r₃, hr₃, rfl⟩ := List.mem_map.mp hr
    have hframe : rowGet (assignConst
        (CHANGE_COLS.foldl (fun d c => mapCol d c (cellToNumeric toNum))
          ⟨colsd, rowsd.map fun r => r.map cellReplaceNA⟩) "COUNTRY" country).cols
        (g4 r₃) c =
        rowGet (CHANGE_COLS.foldl (fun d c => mapCol d c (cellToNumeric toNum))
          ⟨colsd, rowsd.map fun r => r.map cellReplaceNA⟩).cols r₃ c :=
      hne4 r₃ hr₃ c hc
    rw [hframe]
    rcases rowGet_mem_or_null (CHANGE_COLS.foldl (fun d c => mapCol d c (cellToNumeric toNum))
        ⟨colsd, rowsd.map fun r => r.map cellReplaceNA⟩).cols r₃ c with hnull | hmemc
    · rw [hnull]
      exact ⟨fun h => Cell.noConfusion h, fun h => Cell.noConfusion h⟩
    · exact hcell3 r₃ hr₃ _ hmemc
  · intro r₁ hr₁ hNA
    have hr₂ : r₁.map cellReplaceNA ∈ rowsd.map (fun r => r.map cellReplaceNA) :=
      List.mem_map_of_mem _ hr₁
    have hsym2 : rowGet colsd (r₁.map cellReplaceNA) SYMBOL_COL = Cell.null := by
      rw [rowGet_map cellReplaceNA rfl, hNA]
      simp [cellReplaceNA]
    have hr₃ : g3 (r₁.map cellReplaceNA) ∈
        (CHANGE_COLS.foldl (fun d c => mapCol d c (cellToNumeric toNum))
          ⟨colsd, rowsd.map fun r => r.map cellReplaceNA⟩).rows := by
      rw [hrows3']
      exact List.mem_map_of_mem _ hr₂
    have hsym3 : rowGet colsd (g3 (r₁.map cellReplaceNA)) SYMBOL_COL = Cell.null := by
      rw [hne3' _ SYMBOL_COL (by decide)]
      exact hsym2
    refine ⟨g4 (g3 (r₁.map cellReplaceNA)), ?_, ?_⟩
    · rw [hrows4']
      exact List.mem_map_of_mem _ hr₃
    · have hframe : rowGet (assignConst
          (CHANGE_COLS.foldl (fun d c => mapCol d c (cellToNumeric toNum))
            ⟨colsd, rowsd.map fun r => r.map cellReplaceNA⟩) "COUNTRY" country).cols
          (g4 (g3 (r₁.map cellReplaceNA))) SYMBOL_COL =
          rowGet (CHANGE_COLS.foldl (fun d c => mapCol d c (cellToNumeric toNum))
            ⟨colsd, rowsd.map fun r => r.map cellReplaceNA⟩).cols
          (g3 (r₁.map cellReplaceNA)) SYMBOL_COL :=
        hne4 _ hr₃ SYMBOL_COL (by decide)
      rw [hframe, hcols3']
      exact hsym3

/-! ### Claim C4 -/

/-- Claim C4, counterexample: a file consisting of a valid header line and
an end marker — hence zero data lines after filtering — is parsed to the
failure signal `none`, not to a zero-record snapshot. -/
theorem empty_snapshot_counterexample :
    parseIbkrTxt (fun _ => none) ["#SYM|CUR", "#EOF"] "usa" = none := by decide

/-- Claim C4 (amended): parsing a source file that contains a valid header
line but whose data lines are empty after filtering comment, BOF and EOF
lines yields the parse-failure signal `none` — the same signal as a
malformed file — not a snapshot with zero records. -/
theorem empty_snapshot_yields_parse_failure (toNum : String → Option Rat)
    (lines : List String) (stem : String)
    (hhead : (lines.foldl classifyStep (none, [])).1 ≠ none)
    (hdata : (lines.foldl classifyStep (none, [])).2 = []) :
    parseIbkrTxt toNum lines stem = none := by
  obtain ⟨header, hh⟩ := Option.ne_none_iff_exists'.mp hhead
  simp [parseIbkrTxt, hh, hdata]

/-- Witness for the amended C4 theorem at a concrete file. -/
theorem empty_snapshot_yields_parse_failure_witness :
    ((["#SYM|CUR", "#EOF"].foldl classifyStep (none, [])).1 ≠ none) ∧
      ((["#SYM|CUR", "#EOF"].foldl classifyStep (none, [])).2 = []) ∧
      parseIbkrTxt (fun _ => none) ["#SYM|CUR", "#EOF"] "usa" = none :=
  ⟨by decide, by decide,
    empty_snapshot_yields_parse_failure (fun _ => none) ["#SYM|CUR", "#EOF"] "usa"
      (by decide) (by decide)⟩

/-! ### Claim C5 -/

/-- Claim C5, counterexample: the previous history lacks only the
`AVAILABLE` change column (it still has `FEERATE` and `REBATERATE`), the
shared change columns are unchanged, and the merged record keeps the old
timestamp `5` instead of being stamped with the new extraction timestamp
`7` — so a single missing change column does not trigger the
treat-all-as-new fallback. -/
theorem schema_drift_counterexample :
    colValue
        (mergeWithTimestampTracking
          ⟨["SYM", "FEERATE", "REBATERATE", "TIMESTAMP"],
            [[Cell.str "A", Cell.num 1, Cell.num 2, Cell.time 5]]⟩
          ⟨["SYM", "AVAILABLE", "FEERATE", "REBATERATE", "TIMESTAMP"],
            [[Cell.str "A", Cell.num 9, Cell.num 1, Cell.num 2, Cell.time 7]]⟩ 7)
        0 "TIMESTAMP" = Cell.time 5 ∧
      Cell.time 5 ≠ Cell.time 7 := by decide

/-- Claim C5 (amended): whenever the previous history lacks the symbol
column, or lacks every change column, the merger does not fail: it returns
the stamped new snapshot unchanged, so every record of the new snapshot
carries the new extraction timestamp in the merged output.  (If only some
change columns are missing, the merge instead proceeds on the shared
ones.) -/
theorem schema_drift_fallback (prev newDf : DataFrame) (T : Nat)
    (hwf : Wellformed newDf)
    (hdrift : SYMBOL_COL ∉ prev.cols ∨ ∀ c ∈ CHANGE_COLS, c ∉ prev.cols) :
    mergeWithTimestampTracking prev (assignConst newDf "TIMESTAMP" (Cell.time T)) T =
        assignConst newDf "TIMESTAMP" (Cell.time T) ∧
      ∀ i < newDf.rows.length,
        colValue (mergeWithTimestampTracking prev
            (assignConst newDf "TIMESTAMP" (Cell.time T)) T) i "TIMESTAMP" =
          Cell.time T := by
  set stamped := assignConst newDf "TIMESTAMP" (Cell.time T) with hst
  have hmerge : mergeWithTimestampTracking prev stamped T = stamped := by
    unfold mergeWithTimestampTracking
    by_cases hg : SYMBOL_COL ∉ prev.cols ∨ SYMBOL_COL ∉ stamped.cols
    · rw [if_pos hg]
    · rw [if_neg hg]
      have hprevsym : SYMBOL_COL ∈ prev.cols := by
        by_contra hc
        exact hg (Or.inl hc)
      have hright : ∀ c ∈ CHANGE_COLS, c ∉ prev.cols :=
        hdrift.resolve_left fun hc => hc hprevsym
      have hfil : (CHANGE_COLS.filter fun c =>
          decide (c ∈ stamped.cols) && decide (c ∈ prev.cols)) = [] := by
        rw [List.filter_eq_nil_iff]
        intro c hc
        simp [hright c hc]
      simp [hfil]
  refine ⟨hmerge, ?_⟩
  intro i hi
  rw [hmerge]
  obtain ⟨g, hrows, hne2, hself, hlen⟩ :=
    assignCol_map_spec newDf "TIMESTAMP" (fun _ => Cell.time T) hwf
  have hrows' : stamped.rows = newDf.rows.map g := hrows
  unfold colValue
  rw [hrows', getD_map_of_lt g newDf.rows i hi [] []]
  exact hself _ (getD_mem_of_lt newDf.rows i [] hi)

/-- Witness for the amended C5 theorem at a concrete input. -/
theorem schema_drift_fallback_witness :
    Wellformed (⟨["SYM", "AVAILABLE"], [[Cell.str "A", Cell.num 3]]⟩ : DataFrame) ∧
      (∀ c ∈ CHANGE_COLS,
        c ∉ (⟨["SYM", "TIMESTAMP"], [[Cell.str "A", Cell.time 5]]⟩ : DataFrame).cols) ∧
      mergeWithTimestampTracking
          ⟨["SYM", "TIMESTAMP"], [[Cell.str "A", Cell.time 5]]⟩
          (assignConst ⟨["SYM", "AVAILABLE"], [[Cell.str "A", Cell.num 3]]⟩
            "TIMESTAMP" (Cell.time 7)) 7 =
        assignConst ⟨["SYM", "AVAILABLE"], [[Cell.str "A", Cell.num 3]]⟩
          "TIMESTAMP" (Cell.time 7) :=
  ⟨by decide, by decide,
    (schema_drift_fallback ⟨["SYM", "TIMESTAMP"], [[Cell.str "A", Cell.time 5]]⟩
      ⟨["SYM", "AVAILABLE"], [[Cell.str "A", Cell.num 3]]⟩ 7 (by decide)
      (Or.inr (by decide))).1⟩

/-! ### Claim C6 -/

/-- Claim C6: feeding the parser a file with no recognizable header line
yields the failure signal `none` (no snapshot), and the processing step
skips the file, leaving the stored per-source history exactly its pre-run
state. -/
theorem malformed_source_atomicity (toNum : String → Option Rat)
    (prev : Option DataFrame) (lines : List String) (stem : String) (ts : Nat)
    (hnohdr : ∀ raw ∈ lines, isHeaderLine raw = false) :
    parseIbkrTxt toNum lines stem = none ∧
      processSource toNum prev lines stem ts = prev := by
  have h1 : (lines.foldl classifyStep (none, [])).1 = none :=
    classify_fold_fst_of_no_header lines (none, []) hnohdr
  have hp : parseIbkrTxt toNum lines stem = none := by
    simp [parseIbkrTxt, h1]
  exact ⟨hp, by simp [processSource, hp]⟩

/-- Witness for the C6 theorem at a concrete malformed file. -/
theorem malformed_source_atomicity_witness :
    (∀ raw ∈ ["#BOF|2025.04.14|19:06:47", "AAPL|USD|10", "#EOF"],
        isHeaderLine raw = false) ∧
      processSource (fun _ => none)
          (some ⟨["SYM"], [[Cell.str "Z"]]⟩)
          ["#BOF|2025.04.14|19:06:47", "AAPL|USD|10", "#EOF"] "usa" 3 =
        some ⟨["SYM"], [[Cell.str "Z"]]⟩ :=
  ⟨by decide,
    (malformed_source_atomicity (fun _ => none) (some ⟨["SYM"], [[Cell.str "Z"]]⟩)
      ["#BOF|2025.04.14|19:06:47", "AAPL|USD|10", "#EOF"] "usa" 3 (by decide)).2⟩

/-! ### Claim C10 -/

/-- Claim C10: after the empty-symbol filter, the parser replaces the
literal strings `"NA"` and `""` with null in every column — no cell of a
successfully parsed snapshot outside the later-attached `COUNTRY` column
is the string `"NA"` or `""` — and a data line whose symbol field
normalizes to exactly `"NA"` survives the empty-symbol filter (length 2 is
positive) yet appears in the snapshot with a null symbol. -/
theorem placeholder_null_replacement (toNum : String → Option Rat)
    (lines : List String) (stem : String) (df : DataFrame)
    (hparse : parseIbkrTxt toNum lines stem = some df) :
    (∀ r ∈ df.rows, ∀ c, c ≠ "COUNTRY" →
        rowGet df.cols r c ≠ Cell.str "NA" ∧ rowGet df.cols r c ≠ Cell.str "") ∧
      ∀ header line,
        (lines.foldl classifyStep (none, [])).1 = some header →
        line ∈ (lines.foldl classifyStep (none, [])).2 →
        SYMBOL_COL ∈ headerColumns header →
        cellUpperStrip (rowGet (headerColumns header)
            (dataRowOfLine (headerColumns header).length line) SYMBOL_COL) =
          Cell.str "NA" →
        ∃ r ∈ df.rows, rowGet df.cols r SYMBOL_COL = Cell.null := by
  cases hacc : (lines.foldl classifyStep (none, [])).1 with
  | none => simp [parseIbkrTxt, hacc] at hparse
  | some header =>
    simp only [parseIbkrTxt, hacc] at hparse
    split at hparse
    · exact absurd hparse (by simp)
    · injection hparse with hdf
      subst hdf
      constructor
      · by_cases hsym : SYMBOL_COL ∈ headerColumns header
        · simp only [if_pos hsym]
          obtain ⟨g1, hrows1, hmem1, hne1, hlen1, hself1⟩ :=
            mapCol_rows_spec
              ⟨headerColumns header,
                ((lines.foldl classifyStep (none, [])).2).map
                  (dataRowOfLine (headerColumns header).length)⟩
              SYMBOL_COL cellUpperStrip
          have hrows1' : (mapCol
              ⟨headerColumns header,
                ((lines.foldl classifyStep (none, [])).2).map
                  (dataRowOfLine (headerColumns header).length)⟩
              SYMBOL_COL cellUpperStrip).rows =
              (((lines.foldl classifyStep (none, [])).2).map
                (dataRowOfLine (headerColumns header).length)).map g1 := hrows1
          have hmc : (mapCol
              ⟨headerColumns header,
                ((lines.foldl classifyStep (none, [])).2).map
                  (dataRowOfLine (headerColumns header).length)⟩
              SYMBOL_COL cellUpperStrip).cols = headerColumns header :=
            mapCol_cols _ _ _
          have hwfd : ∀ r ∈ (mapCol
              ⟨headerColumns header,
                ((lines.foldl classifyStep (none, [])).2).map
                  (dataRowOfLine (headerColumns header).length)⟩
              SYMBOL_COL cellUpperStrip).rows.filter
                (fun r => symLenPos (rowGet (mapCol
                  ⟨headerColumns header,
                    ((lines.foldl classifyStep (none, [])).2).map
                      (dataRowOfLine (headerColumns header).length)⟩
                  SYMBOL_COL cellUpperStrip).cols r SYMBOL_COL)),
              r.length = (mapCol
                ⟨headerColumns header,
                  ((lines.foldl classifyStep (none, [])).2).map
                    (dataRowOfLine (headerColumns header).length)⟩
                SYMBOL_COL cellUpperStrip).cols.length := by
            intro r hr
            have hr' := List.mem_of_mem_filter hr
            rw [hrows1'] at hr'
            obtain ⟨r₀, hr₀, rfl⟩ := List.mem_map.mp hr'
            obtain ⟨line₀, hl₀, rfl⟩ := List.mem_map.mp hr₀
            rw [hlen1, hmc]
            exact dataRowOfLine_length _ _
          exact (parse_tail_spec toNum _ _ _ _ hwfd rfl).1
        · simp only [if_neg hsym]
          have hwfd : ∀ r ∈ ((lines.foldl classifyStep (none, [])).2).map
              (dataRowOfLine (headerColumns header).length),
              r.length = (headerColumns header).length := by
            intro r hr
            obtain ⟨line₀, hl₀, rfl⟩ := List.mem_map.mp hr
            exact dataRowOfLine_length _ _
          exact (parse_tail_spec toNum _ _ _ _ hwfd rfl).1
      · intro header' line hacc' hline hsymm hNA
        have hh : header' = header := (Option.some.inj hacc').symm
        subst hh
        simp only [if_pos hsymm]
        obtain ⟨g1, hrows1, hmem1, hne1, hlen1, hself1⟩ :=
          mapCol_rows_spec
            ⟨headerColumns header',
              ((lines.foldl classifyStep (none, [])).2).map
                (dataRowOfLine (headerColumns header').length)⟩
            SYMBOL_COL cellUpperStrip
        have hrows1' : (mapCol
            ⟨headerColumns header',
              ((lines.foldl classifyStep (none, [])).2).map
                (dataRowOfLine (headerColumns header').length)⟩
            SYMBOL_COL cellUpperStrip).rows =
            (((lines.foldl classifyStep (none, [])).2).map
              (dataRowOfLine (headerColumns header').length)).map g1 := hrows1
        have hmc : (mapCol
            ⟨headerColumns header',
              ((lines.foldl classifyStep (none, [])).2).map
                (dataRowOfLine (headerColumns header').length)⟩
            SYMBOL_COL cellUpperStrip).cols = headerColumns header' :=
          mapCol_cols _ _ _
        have hr₀ : dataRowOfLine (headerColumns header').length line ∈
            ((lines.foldl classifyStep (none, [])).2).map
              (dataRowOfLine (headerColumns header').length) :=
          List.mem_map_of_mem _ hline
        have hsymval : rowGet (headerColumns header')
            (g1 (dataRowOfLine (headerColumns header').length line)) SYMBOL_COL =
            Cell.str "NA" := by
          have h : rowGet (headerColumns header')
              (g1 (dataRowOfLine (headerColumns header').length line)) SYMBOL_COL =
              cellUpperStrip (rowGet (headerColumns header')
                (dataRowOfLine (headerColumns header').length line) SYMBOL_COL) :=
            hself1 (dataRowOfLine (headerColumns header').length line)
              (le_of_eq (dataRowOfLine_length _ _).symm) hsymm
          rw [h, hNA]
        have hr₁ : g1 (dataRowOfLine (headerColumns header').length line) ∈
            (mapCol
              ⟨headerColumns header',
                ((lines.foldl classifyStep (none, [])).2).map
                  (dataRowOfLine (headerColumns header').length)⟩
              SYMBOL_COL cellUpperStrip).rows := by
          rw [hrows1']
          exact List.mem_map_of_mem _ hr₀
        have hpred : symLenPos (rowGet (mapCol
            ⟨headerColumns header',
              ((lines.foldl classifyStep (none, [])).2).map
                (dataRowOfLine (headerColumns header').length)⟩
            SYMBOL_COL cellUpperStrip).cols
            (g1 (dataRowOfLine (headerColumns header').length line)) SYMBOL_COL) = true := by
          rw [hmc, hsymval]
          rfl
        have hr₁f : g1 (dataRowOfLine (headerColumns header').length line) ∈
            (mapCol
              ⟨headerColumns header',
                ((lines.foldl classifyStep (none, [])).2).map
                  (dataRowOfLine (headerColumns header').length)⟩
              SYMBOL_COL cellUpperStrip).rows.filter
                (fun r => symLenPos (rowGet (mapCol
                  ⟨headerColumns header',
                    ((lines.foldl classifyStep (none, [])).2).map
                      (dataRowOfLine (headerColumns header').length)⟩
                  SYMBOL_COL cellUpperStrip).cols r SYMBOL_COL)) :=
          List.mem_filter.mpr ⟨hr₁, hpred⟩
        have hwfd : ∀ r ∈ (mapCol
            ⟨headerColumns header',
              ((lines.foldl classifyStep (none, [])).2).map
                (dataRowOfLine (headerColumns header').length)⟩
            SYMBOL_COL cellUpperStrip).rows.filter
              (fun r => symLenPos (rowGet (mapCol
                ⟨headerColumns header',
                  ((lines.foldl classifyStep (none, [])).2).map
                    (dataRowOfLine (headerColumns header').length)⟩
                SYMBOL_COL cellUpperStrip).cols r SYMBOL_COL)),
            r.length = (mapCol
              ⟨headerColumns header',
                ((lines.foldl classifyStep (none, [])).2).map
                  (dataRowOfLine (headerColumns header').length)⟩
              SYMBOL_COL cellUpperStrip).cols.length := by
          intro r hr
          have hr' := List.mem_of_mem_filter hr
          rw [hrows1'] at hr'
          obtain ⟨r₀, hr₀mem, rfl⟩ := List.mem_map.mp hr'
          obtain ⟨line₀, hl₀, rfl⟩ := List.mem_map.mp hr₀mem
          rw [hlen1, hmc]
          exact dataRowOfLine_length _ _
        have hsymval' : rowGet (mapCol
            ⟨headerColumns header',
              ((lines.foldl classifyStep (none, [])).2).map
                (dataRowOfLine (headerColumns header').length)⟩
            SYMBOL_COL cellUpperStrip).cols
            (g1 (dataRowOfLine (headerColumns header').length line)) SYMBOL_COL =
            Cell.str "NA" := by
          rw [hmc]
          exact hsymval
        exact (parse_tail_spec toNum _ _ _ _ hwfd rfl).2
          (g1 (dataRowOfLine (headerColumns header').length line)) hr₁f hsymval'

/-- Witness for the C10 theorem at a concrete file whose data row has the
symbol field `na` (normalizing to `"NA"`) and an `NA` in the `NAME`
column. -/
theorem placeholder_null_replacement_witness :
    parseIbkrTxt (fun _ => none) ["#SYM|NAME|AVAILABLE", "na|NA|x", "#EOF"] "usa" =
        some ⟨["SYM", "NAME", "AVAILABLE", "COUNTRY"],
          [[Cell.null, Cell.null, Cell.null, Cell.str "USA"]]⟩ ∧
      ((∀ r ∈ (⟨["SYM", "NAME", "AVAILABLE", "COUNTRY"],
            [[Cell.null, Cell.null, Cell.null, Cell.str "USA"]]⟩ : DataFrame).rows,
          ∀ c, c ≠ "COUNTRY" →
            rowGet ["SYM", "NAME", "AVAILABLE", "COUNTRY"] r c ≠ Cell.str "NA" ∧
              rowGet ["SYM", "NAME", "AVAILABLE", "COUNTRY"] r c ≠ Cell.str "") ∧
        ∀ header line,
          ((["#SYM|NAME|AVAILABLE", "na|NA|x", "#EOF"] :
              List String).foldl classifyStep (none, [])).1 = some header →
          line ∈ ((["#SYM|NAME|AVAILABLE", "na|NA|x", "#EOF"] :
              List String).foldl classifyStep (none, [])).2 →
          SYMBOL_COL ∈ headerColumns header →
          cellUpperStrip (rowGet (headerColumns header)
              (dataRowOfLine (headerColumns header).length line) SYMBOL_COL) =
            Cell.str "NA" →
          ∃ r ∈ (⟨["SYM", "NAME", "AVAILABLE", "COUNTRY"],
              [[Cell.null, Cell.null, Cell.null, Cell.str "USA"]]⟩ : DataFrame).rows,
            rowGet ["SYM", "NAME", "AVAILABLE", "COUNTRY"] r SYMBOL_COL = Cell.null) :=
  ⟨by decide,
    placeholder_null_replacement (fun _ => none)
      ["#SYM|NAME|AVAILABLE", "na|NA|x", "#EOF"] "usa"
      ⟨["SYM", "NAME", "AVAILABLE", "COUNTRY"],
        [[Cell.null, Cell.null, Cell.null, Cell.str "USA"]]⟩ (by decide)⟩

/-! ### Claim C7 -/

/-- Claim C7: applying the deduplication rule to an already-compacted
history yields the identical rows, and the Compiler excludes its own prior
output file `master.pkl.gz` from its inputs, so compiling again after a
first compile (which added `master.pkl.gz` to the folder) yields identical
master output. -/
theorem idempotent_compaction_and_compile (df : DataFrame)
    (files : List (String × DataFrame)) (m : DataFrame) :
    dropDuplicatesLast (resampleDF df) = resampleDF df ∧
      actionCompile (files ++ [("master.pkl.gz", m)]) = actionCompile files := by
  constructor
  · simp only [resampleDF]
    exact dropDuplicatesLast_idem _
  · unfold actionCompile
    rw [List.filter_append]
    simp

end StockLoan
